import Mathlib

/-!
Verification of the cydec compression pipeline against its specification.

The integer/float codec pipeline (`integer_codec.rs`, `floating_codec.rs`) is
modelled from the specification: signed-to-unsigned zigzag folding, wrapping
delta encoding, a second zigzag on the deltas, little-endian byte packing, and
a self-describing `CYDEC` container header.  The backing byte compressor is out
of scope for the specification (any stateless invertible framed compressor is
acceptable); it is modelled as the identity on byte sequences.  Floating-point
samples and scale factors are modelled as exact rationals; the 64-bit IEEE-754
serialization of the scale-factor header field is implemented directly on
rationals.
-/

namespace Cydec

/-- Modelled from the spec: the five magic bytes `CYDEC` at the start of every
non-empty blob (spec section 6.1). -/
def MAGIC : List Nat := [0x43, 0x59, 0x44, 0x45, 0x43]

/-- Modelled from the spec: format version byte (spec section 6.1). -/
def VERSION : Nat := 1

/-- Modelled from the spec: codec id byte, `0x01` = backing compressor in use
(spec section 6.1). -/
def CODEC_LZ4 : Nat := 1

/-- Modelled from the spec: wire type tag for i64 (spec section 6.1). -/
def TAG_I64 : Nat := 0

/-- Modelled from the spec: wire type tag for u64 (spec section 6.1). -/
def TAG_U64 : Nat := 1

/-- Modelled from the spec: wire type tag for i32 (spec section 6.1). -/
def TAG_I32 : Nat := 2

/-- Modelled from the spec: wire type tag for u32 (spec section 6.1). -/
def TAG_U32 : Nat := 3

/-- Modelled from the spec: wire type tag for f64 (spec section 6.1). -/
def TAG_F64 : Nat := 4

/-- Modelled from the spec: wire type tag for f32 (spec section 6.1). -/
def TAG_F32 : Nat := 5

/-- Modelled from the spec: wire type tag for raw bytes (spec section 6.1). -/
def TAG_BYTES : Nat := 6

/-- Modelled from the spec: the backing compressor (spec section 2) is a
stateless byte-in/byte-out compressor with a self-delimiting frame, treated as
a black box whose decompression exactly inverts compression.  It is modelled as
the identity on byte sequences. -/
def lz4Compress (bs : List Nat) : List Nat := bs

/-- Modelled from the spec: inverse of the backing compressor; it may reject a
malformed frame (error kind DecompressionFailure), which the identity model
never does. -/
def lz4Decompress (bs : List Nat) : Option (List Nat) := some bs

/-- Little-endian serialization of a machine word into `k` bytes, least
significant byte first (spec section 4.1, step 4). -/
def toLEBytes : Nat → Nat → List Nat
  | 0, _ => []
  | k + 1, n => n % 256 :: toLEBytes k (n / 256)

/-- Little-endian deserialization of a byte sequence into a machine word. -/
def fromLEBytes : List Nat → Nat
  | [] => 0
  | b :: bs => b + 256 * fromLEBytes bs

/-- Zigzag encoding `u = (n <<< 1) ^^^ (n >>> (w-1))` on the `w`-bit
two's-complement pattern `p` of a signed value: the left shift wraps in the
`w`-bit domain, and the arithmetic right shift by `w-1` yields the all-ones
pattern for negative values and zero otherwise (spec sections 4.1 and 9). -/
def zigzag (w p : Nat) : Nat :=
  (2 * p) % 2 ^ w ^^^ (if p < 2 ^ (w - 1) then 0 else 2 ^ w - 1)

/-- Inverse zigzag `n = (u >>> 1) ^^^ -(u &&& 1)` in the `w`-bit unsigned
domain: the negation of the low bit is the all-ones pattern when `u` is odd. -/
def unzigzag (w u : Nat) : Nat :=
  u / 2 ^^^ (if u % 2 = 1 then 2 ^ w - 1 else 0)

/-- Wrapping differences of consecutive elements, in the unsigned ring of
modulus `M = 2 ^ w` (spec section 4.1, step 2): `prev` is the predecessor of
the first element. -/
def deltas (M : Nat) : Nat → List Nat → List Nat
  | _, [] => []
  | prev, x :: xs => (x + M - prev) % M :: deltas M x xs

/-- Delta encoding: `d 0 = x 0` and `d i = x i - x (i-1)` with wrapping
subtraction (spec section 4.1, step 2). -/
def deltaEncode (M : Nat) : List Nat → List Nat
  | [] => []
  | x :: xs => x :: deltas M x xs

/-- Wrapping prefix sums, the inverse of `deltas`: `prev` is the running
accumulator. -/
def unDeltas (M : Nat) : Nat → List Nat → List Nat
  | _, [] => []
  | prev, d :: ds => (prev + d) % M :: unDeltas M ((prev + d) % M) ds

/-- Inverse delta: prefix sum with wrapping addition starting from zero
(spec section 4.1, decode). -/
def deltaDecode (M : Nat) (ds : List Nat) : List Nat := unDeltas M 0 ds

/-- Serialize each word of the sequence as `k` little-endian bytes and
concatenate (spec section 4.1, step 4). -/
def packWords (k : Nat) : List Nat → List Nat
  | [] => []
  | x :: xs => toLEBytes k x ++ packWords k xs

/-- Split a byte sequence into chunks of `k` bytes and deserialize each chunk
as a little-endian word. -/
def unpackWords (k : Nat) : List Nat → List Nat
  | [] => []
  | b :: rest =>
    fromLEBytes (b :: rest.take (k - 1)) :: unpackWords k (rest.drop (k - 1))
termination_by bs => bs.length
decreasing_by simp [List.length_drop]; omega

/-- The `w`-bit two's-complement bit pattern of a signed value. -/
def toPat (w : Nat) (n : Int) : Nat := (n % (2 ^ w : Int)).toNat

/-- The signed value of a `w`-bit two's-complement bit pattern. -/
def fromPat (w : Nat) (p : Nat) : Int :=
  if p < 2 ^ (w - 1) then (p : Int) else (p : Int) - 2 ^ w

/-- The unsigned transform chain of spec section 4.1: delta encode, zigzag each
delta, pack little-endian (`w` bits per word, `k = w / 8` bytes). -/
def encodeBodyU (w k : Nat) (xs : List Nat) : List Nat :=
  packWords k ((deltaEncode (2 ^ w) xs).map (zigzag w))

/-- Inverse of `encodeBodyU`: unpack, un-zigzag each delta, prefix-sum. -/
def decodeBodyU (w k : Nat) (bs : List Nat) : List Nat :=
  deltaDecode (2 ^ w) ((unpackWords k bs).map (unzigzag w))

/-- The signed transform chain of spec section 4.1: zigzag-fold each signed
value into the unsigned domain, then the unsigned chain. -/
def encodeBodyS (w k : Nat) (xs : List Int) : List Nat :=
  encodeBodyU w k (xs.map fun x => zigzag w (toPat w x))

/-- Inverse of `encodeBodyS`: unsigned decode, then un-zigzag each value back
into the signed domain. -/
def decodeBodyS (w k : Nat) (bs : List Nat) : List Int :=
  (decodeBodyU w k bs).map fun u => fromPat w (unzigzag w u)

/-- Modelled from the spec: the container header of section 6.1 followed by
the compressed payload: magic, version, codec id, type tag, element count as
unsigned little-endian 64-bit, the optional scale field (`extra`), and the
backing-compressor frame over the packed bytes. -/
def mkBlob (tag n : Nat) (extra payload : List Nat) : List Nat :=
  MAGIC ++ VERSION :: CODEC_LZ4 :: tag ::
    (toLEBytes 8 n ++ (extra ++ lz4Compress payload))

/-- Modelled from the spec: the error kinds of spec section 7. -/
inductive CodecError where
  | badMagic
  | badVersion (found : Nat)
  | badCodecId (found : Nat)
  | wrongType (expected found : Nat)
  | truncatedBlob
  | decompressionFailure
  | quantizationOverflow
  | malformedPayload
deriving DecidableEq, Repr

/-- Human-readable name of a wire type tag, used in error messages. -/
def typeName (t : Nat) : String :=
  if t = 0 then "i64"
  else if t = 1 then "u64"
  else if t = 2 then "i32"
  else if t = 3 then "u32"
  else if t = 4 then "f64"
  else if t = 5 then "f32"
  else if t = 6 then "bytes"
  else "unknown"

/-- Modelled from the spec: stable error messages asserted on by the tests
(spec sections 7 and 8): wrong-type messages name both the expected and the
found tag. -/
def CodecError.message : CodecError → String
  | .badMagic => "bad magic bytes"
  | .badVersion v => "bad version: " ++ toString v
  | .badCodecId c => "bad codec id: " ++ toString c
  | .wrongType e f =>
    "wrong type: expected " ++ typeName e ++ ", found " ++ typeName f
  | .truncatedBlob => "blob too small"
  | .decompressionFailure => "decompression failed"
  | .quantizationOverflow => "quantization overflow: value out of range"
  | .malformedPayload => "malformed payload"

/-- Modelled from the spec: header validation on decode (spec sections 4.3,
6.1 and 7): a non-empty blob shorter than the fixed-size header is truncated;
then magic, version, codec id and type tag are validated in order, and the
element count is read from bytes 8..16.  Returns the element count and the
bytes after the 16-byte common header. -/
def parseHeader (expected : Nat) (blob : List Nat) :
    Except CodecError (Nat × List Nat) :=
  if blob.length < 16 then .error .truncatedBlob
  else if blob.take 5 ≠ MAGIC then .error .badMagic
  else if blob.getD 5 0 ≠ VERSION then .error (.badVersion (blob.getD 5 0))
  else if blob.getD 6 0 ≠ CODEC_LZ4 then .error (.badCodecId (blob.getD 6 0))
  else if blob.getD 7 0 ≠ expected then
    .error (.wrongType expected (blob.getD 7 0))
  else .ok (fromLEBytes ((blob.drop 8).take 8), blob.drop 16)

/-- Modelled from the spec: encode an i64 array (spec section 4.1): empty
input short-circuits to a zero-length blob, otherwise header plus the signed
transform chain at width 64. -/
def compress_i64 (xs : List Int) : List Nat :=
  if xs = [] then [] else mkBlob TAG_I64 xs.length [] (encodeBodyS 64 8 xs)

/-- Modelled from the spec: encode a u64 array (unsigned chain, width 64). -/
def compress_u64 (xs : List Nat) : List Nat :=
  if xs = [] then [] else mkBlob TAG_U64 xs.length [] (encodeBodyU 64 8 xs)

/-- Modelled from the spec: encode an i32 array (signed chain, width 32). -/
def compress_i32 (xs : List Int) : List Nat :=
  if xs = [] then [] else mkBlob TAG_I32 xs.length [] (encodeBodyS 32 4 xs)

/-- Modelled from the spec: encode a u32 array (unsigned chain, width 32). -/
def compress_u32 (xs : List Nat) : List Nat :=
  if xs = [] then [] else mkBlob TAG_U32 xs.length [] (encodeBodyU 32 4 xs)

/-- Modelled from the spec: encode a raw byte array; the payload is the bytes
themselves through the backing compressor (spec section 4.1). -/
def compress_bytes (bs : List Nat) : List Nat :=
  if bs = [] then [] else mkBlob TAG_BYTES bs.length [] bs

/-- Modelled from the spec: decode an i64 blob: a zero-length blob yields the
empty array; otherwise validate the header, decompress the payload, check the
packed byte count against the element count, and invert the transform chain. -/
def decompress_i64 (blob : List Nat) : Except CodecError (List Int) :=
  if blob = [] then .ok []
  else match parseHeader TAG_I64 blob with
    | .error e => .error e
    | .ok (n, rest) =>
      match lz4Decompress rest with
      | none => .error .decompressionFailure
      | some bytes =>
        if bytes.length ≠ n * 8 then .error .malformedPayload
        else .ok (decodeBodyS 64 8 bytes)

/-- Modelled from the spec: decode a u64 blob. -/
def decompress_u64 (blob : List Nat) : Except CodecError (List Nat) :=
  if blob = [] then .ok []
  else match parseHeader TAG_U64 blob with
    | .error e => .error e
    | .ok (n, rest) =>
      match lz4Decompress rest with
      | none => .error .decompressionFailure
      | some bytes =>
        if bytes.length ≠ n * 8 then .error .malformedPayload
        else .ok (decodeBodyU 64 8 bytes)

/-- Modelled from the spec: decode an i32 blob. -/
def decompress_i32 (blob : List Nat) : Except CodecError (List Int) :=
  if blob = [] then .ok []
  else match parseHeader TAG_I32 blob with
    | .error e => .error e
    | .ok (n, rest) =>
      match lz4Decompress rest with
      | none => .error .decompressionFailure
      | some bytes =>
        if bytes.length ≠ n * 4 then .error .malformedPayload
        else .ok (decodeBodyS 32 4 bytes)

/-- Modelled from the spec: decode a u32 blob. -/
def decompress_u32 (blob : List Nat) : Except CodecError (List Nat) :=
  if blob = [] then .ok []
  else match parseHeader TAG_U32 blob with
    | .error e => .error e
    | .ok (n, rest) =>
      match lz4Decompress rest with
      | none => .error .decompressionFailure
      | some bytes =>
        if bytes.length ≠ n * 4 then .error .malformedPayload
        else .ok (decodeBodyU 32 4 bytes)

/-- Modelled from the spec: decode a raw-byte blob. -/
def decompress_bytes (blob : List Nat) : Except CodecError (List Nat) :=
  if blob = [] then .ok []
  else match parseHeader TAG_BYTES blob with
    | .error e => .error e
    | .ok (n, rest) =>
      match lz4Decompress rest with
      | none => .error .decompressionFailure
      | some bytes =>
        if bytes.length ≠ n then .error .malformedPayload
        else .ok bytes

/-- Modelled from the spec: default f64 scale factor `1e9` (spec section
6.2); float samples and scales are modelled as exact rationals. -/
def DEFAULT_F64_SCALE : ℚ := 1000000000

/-- Modelled from the spec: default f32 scale factor `1e6` (spec section
6.2). -/
def DEFAULT_F32_SCALE : ℚ := 1000000

/-- Binary exponent search, upward: given `cur = 2 ^ e ≤ q`, doubles until
`2 * cur > q`, returning the largest `e` with `2 ^ e ≤ q` and that power. -/
def expUp : Nat → ℚ → ℚ → Int → Int × ℚ
  | 0, _, cur, e => (e, cur)
  | fuel + 1, q, cur, e =>
    if 2 * cur ≤ q then expUp fuel q (2 * cur) (e + 1) else (e, cur)

/-- Binary exponent search, downward: given `cur = 2 ^ e`, halves until
`cur ≤ q`, returning that exponent and power. -/
def expDown : Nat → ℚ → ℚ → Int → Int × ℚ
  | 0, _, cur, e => (e, cur)
  | fuel + 1, q, cur, e =>
    if cur ≤ q then (e, cur) else expDown fuel q (cur / 2) (e - 1)

/-- For a positive rational `q`, the pair `(e, 2 ^ e)` with
`2 ^ e ≤ q < 2 ^ (e + 1)` (within the double-precision exponent range). -/
def frexpQ (q : ℚ) : Int × ℚ :=
  if 1 ≤ q then expUp 1100 q 1 0 else expDown 1100 q (1 / 2) (-1)

/-- Modelled from the spec: the 64-bit IEEE-754 bit pattern of a rational
value (sign, biased 11-bit exponent, 52-bit mantissa field), used for the
scale-factor header field of spec section 6.1. -/
def f64Bits (q : ℚ) : Nat :=
  if q = 0 then 0
  else
    let sign : Nat := if q < 0 then 2 ^ 63 else 0
    let a := |q|
    let ep := frexpQ a
    if ep.1 < -1022 then
      sign + (round (a * (2 : ℚ) ^ (1074 : ℤ))).toNat
    else
      let m := (round (a / ep.2 * 2 ^ 52)).toNat
      if m = 2 ^ 53 then
        if ep.1 + 1 > 1023 then sign + 2047 * 2 ^ 52
        else sign + (ep.1 + 1 + 1023).toNat * 2 ^ 52
      else
        if ep.1 > 1023 then sign + 2047 * 2 ^ 52
        else sign + (ep.1 + 1023).toNat * 2 ^ 52 + (m - 2 ^ 52)

/-- Modelled from the spec: the rational value of a 64-bit IEEE-754 bit
pattern (non-finite patterns, outside the supported domain, map to zero). -/
def f64FromBits (bits : Nat) : ℚ :=
  let sign : Nat := bits / 2 ^ 63 % 2
  let E : Nat := bits / 2 ^ 52 % 2 ^ 11
  let F : Nat := bits % 2 ^ 52
  let mag : ℚ :=
    if E = 0 then (F : ℚ) * (2 : ℚ) ^ (-(1074 : ℤ))
    else if E = 2047 then 0
    else ((2 ^ 52 + F : Nat) : ℚ) * (2 : ℚ) ^ ((E : ℤ) - 1075)
  if sign = 1 then -mag else mag

/-- The scale-factor header field: 64-bit IEEE-754, little-endian (spec
section 6.1). -/
def f64ToLEBytes (q : ℚ) : List Nat := toLEBytes 8 (f64Bits q)

/-- Inverse of `f64ToLEBytes`. -/
def f64FromLEBytes (bs : List Nat) : ℚ := f64FromBits (fromLEBytes bs)

/-- Modelled from the spec: fixed-point quantization `q = round (v * s)`
(spec section 4.2); fails with a range error when the quantized value exceeds
the representable range `[lo, hi]` of the target integer type. -/
def quantizeTo (lo hi : Int) (s v : ℚ) : Except CodecError Int :=
  let q := round (v * s)
  if q < lo ∨ hi < q then .error .quantizationOverflow else .ok q

/-- Effectful map over a list, surfacing the first error in input order
(spec section 4.4 error semantics). -/
def mapExcept (f : α → Except CodecError β) :
    List α → Except CodecError (List β)
  | [] => .ok []
  | a :: as =>
    match f a with
    | .error e => .error e
    | .ok b =>
      match mapExcept f as with
      | .error e => .error e
      | .ok bs => .ok (b :: bs)

/-- Modelled from the spec: encode an f64 array (spec section 4.2): empty
input yields an empty blob; otherwise quantize with the effective scale
(caller's, or the f64 default), failing on range overflow, then run the
signed 64-bit pipeline under tag f64 with the scale in the header. -/
def compress_f64 (xs : List ℚ) (scale : Option ℚ) :
    Except CodecError (List Nat) :=
  if xs = [] then .ok []
  else
    match mapExcept (quantizeTo (-(2 ^ 63)) (2 ^ 63 - 1)
        (scale.getD DEFAULT_F64_SCALE)) xs with
    | .error e => .error e
    | .ok qs =>
      .ok (mkBlob TAG_F64 xs.length
        (f64ToLEBytes (scale.getD DEFAULT_F64_SCALE)) (encodeBodyS 64 8 qs))

/-- Modelled from the spec: encode an f32 array: quantize to the i32 range
and run the signed 32-bit pipeline under tag f32. -/
def compress_f32 (xs : List ℚ) (scale : Option ℚ) :
    Except CodecError (List Nat) :=
  if xs = [] then .ok []
  else
    match mapExcept (quantizeTo (-(2 ^ 31)) (2 ^ 31 - 1)
        (scale.getD DEFAULT_F32_SCALE)) xs with
    | .error e => .error e
    | .ok qs =>
      .ok (mkBlob TAG_F32 xs.length
        (f64ToLEBytes (scale.getD DEFAULT_F32_SCALE)) (encodeBodyS 32 4 qs))

/-- Modelled from the spec: decode an f64 blob (spec section 4.2): the
caller's scale takes precedence, otherwise the header scale is used; each
integer is divided by the effective scale. -/
def decompress_f64 (blob : List Nat) (scale : Option ℚ) :
    Except CodecError (List ℚ) :=
  if blob = [] then .ok []
  else match parseHeader TAG_F64 blob with
    | .error e => .error e
    | .ok (n, rest) =>
      if rest.length < 8 then .error .truncatedBlob
      else
        match lz4Decompress (rest.drop 8) with
        | none => .error .decompressionFailure
        | some bytes =>
          if bytes.length ≠ n * 8 then .error .malformedPayload
          else .ok ((decodeBodyS 64 8 bytes).map fun q =>
            ((q : ℤ) : ℚ) / scale.getD (f64FromLEBytes (rest.take 8)))

/-- Modelled from the spec: decode an f32 blob. -/
def decompress_f32 (blob : List Nat) (scale : Option ℚ) :
    Except CodecError (List ℚ) :=
  if blob = [] then .ok []
  else match parseHeader TAG_F32 blob with
    | .error e => .error e
    | .ok (n, rest) =>
      if rest.length < 8 then .error .truncatedBlob
      else
        match lz4Decompress (rest.drop 8) with
        | none => .error .decompressionFailure
        | some bytes =>
          if bytes.length ≠ n * 4 then .error .malformedPayload
          else .ok ((decodeBodyS 32 4 bytes).map fun q =>
            ((q : ℤ) : ℚ) / scale.getD (f64FromLEBytes (rest.take 8)))

/-- Modelled from the spec: the batch driver (spec section 4.4) encodes each
array independently; it is deterministic and order-preserving, so its
observable behavior is an ordered map of the single-array encoder. -/
def compress_many_i64 (xss : List (List Int)) : List (List Nat) :=
  xss.map compress_i64

/-- Modelled from the spec: batch u64 encode. -/
def compress_many_u64 (xss : List (List Nat)) : List (List Nat) :=
  xss.map compress_u64

/-- Modelled from the spec: batch i32 encode. -/
def compress_many_i32 (xss : List (List Int)) : List (List Nat) :=
  xss.map compress_i32

/-- Modelled from the spec: batch u32 encode. -/
def compress_many_u32 (xss : List (List Nat)) : List (List Nat) :=
  xss.map compress_u32

/-- Modelled from the spec: batch f64 encode; the first failing item's error
is surfaced and partial successes are discarded. -/
def compress_many_f64 (xss : List (List ℚ)) (scale : Option ℚ) :
    Except CodecError (List (List Nat)) :=
  mapExcept (fun xs => compress_f64 xs scale) xss

/-- Modelled from the spec: batch f32 encode. -/
def compress_many_f32 (xss : List (List ℚ)) (scale : Option ℚ) :
    Except CodecError (List (List Nat)) :=
  mapExcept (fun xs => compress_f32 xs scale) xss

/-- Modelled from the spec: batch i64 decode, order preserving, surfacing the
first error in input order. -/
def decompress_many_i64 (bs : List (List Nat)) :
    Except CodecError (List (List Int)) :=
  mapExcept decompress_i64 bs

/-- Modelled from the spec: batch u64 decode. -/
def decompress_many_u64 (bs : List (List Nat)) :
    Except CodecError (List (List Nat)) :=
  mapExcept decompress_u64 bs

/-- Modelled from the spec: batch i32 decode. -/
def decompress_many_i32 (bs : List (List Nat)) :
    Except CodecError (List (List Int)) :=
  mapExcept decompress_i32 bs

/-- Modelled from the spec: batch u32 decode. -/
def decompress_many_u32 (bs : List (List Nat)) :
    Except CodecError (List (List Nat)) :=
  mapExcept decompress_u32 bs

/-- Modelled from the spec: batch f64 decode. -/
def decompress_many_f64 (bs : List (List Nat)) (scale : Option ℚ) :
    Except CodecError (List (List ℚ)) :=
  mapExcept (fun b => decompress_f64 b scale) bs

/-- Modelled from the spec: batch f32 decode. -/
def decompress_many_f32 (bs : List (List Nat)) (scale : Option ℚ) :
    Except CodecError (List (List ℚ)) :=
  mapExcept (fun b => decompress_f32 b scale) bs

/-- The seven element types of the codec surface (spec section 6.1). -/
inductive ElemType where
  | ti64 | tu64 | ti32 | tu32 | tf64 | tf32 | tbytes
deriving DecidableEq, Repr, Fintype

/-- The wire tag of an element type (spec section 6.1). -/
def tagOfType : ElemType → Nat
  | .ti64 => TAG_I64
  | .tu64 => TAG_U64
  | .ti32 => TAG_I32
  | .tu32 => TAG_U32
  | .tf64 => TAG_F64
  | .tf32 => TAG_F32
  | .tbytes => TAG_BYTES

/-- A sample array of any of the seven element types, with the optional
caller scale for float arrays. -/
inductive Sample where
  | i64s (xs : List Int)
  | u64s (xs : List Nat)
  | i32s (xs : List Int)
  | u32s (xs : List Nat)
  | f64s (xs : List ℚ) (scale : Option ℚ)
  | f32s (xs : List ℚ) (scale : Option ℚ)
  | bytes (bs : List Nat)
deriving DecidableEq, Repr

/-- The element type of a sample array. -/
def Sample.elemType : Sample → ElemType
  | .i64s _ => .ti64
  | .u64s _ => .tu64
  | .i32s _ => .ti32
  | .u32s _ => .tu32
  | .f64s _ _ => .tf64
  | .f32s _ _ => .tf32
  | .bytes _ => .tbytes

/-- Encode a sample array with the encoder of its element type. -/
def encodeSample : Sample → Except CodecError (List Nat)
  | .i64s xs => .ok (compress_i64 xs)
  | .u64s xs => .ok (compress_u64 xs)
  | .i32s xs => .ok (compress_i32 xs)
  | .u32s xs => .ok (compress_u32 xs)
  | .f64s xs s => compress_f64 xs s
  | .f32s xs s => compress_f32 xs s
  | .bytes bs => .ok (compress_bytes bs)

/-- Decode a blob with the decoder of the given element type (float decoders
called with the scale argument omitted). -/
def decodeAs : ElemType → List Nat → Except CodecError Sample
  | .ti64, b => (decompress_i64 b).map .i64s
  | .tu64, b => (decompress_u64 b).map .u64s
  | .ti32, b => (decompress_i32 b).map .i32s
  | .tu32, b => (decompress_u32 b).map .u32s
  | .tf64, b => (decompress_f64 b none).map (.f64s · none)
  | .tf32, b => (decompress_f32 b none).map (.f32s · none)
  | .tbytes, b => (decompress_bytes b).map .bytes

/-- Whether the first character list starts with the second. -/
def startsWithCL : List Char → List Char → Bool
  | _, [] => true
  | [], _ :: _ => false
  | a :: as, b :: bs => a = b && startsWithCL as bs

/-- Whether the first character list contains the second as a contiguous
run. -/
def containsCL : List Char → List Char → Bool
  | [], needle => needle.isEmpty
  | h :: hs, needle => startsWithCL (h :: hs) needle || containsCL hs needle

/-- Whether the string `hay` contains the string `needle` as a contiguous
substring. -/
def containsStr (hay needle : String) : Bool := containsCL hay.data needle.data

theorem length_toLEBytes (k n : Nat) : (toLEBytes k n).length = k := by
  induction k generalizing n with
  | zero => rfl
  | succ k ih => simp [toLEBytes, ih]

theorem mem_toLEBytes_lt {k n b : Nat} (h : b ∈ toLEBytes k n) : b < 256 := by
  induction k generalizing n with
  | zero => simp [toLEBytes] at h
  | succ k ih =>
    simp only [toLEBytes, List.mem_cons] at h
    rcases h with h | h
    · omega
    · exact ih h

theorem fromLEBytes_toLEBytes {k n : Nat} (h : n < 256 ^ k) :
    fromLEBytes (toLEBytes k n) = n := by
  induction k generalizing n with
  | zero =>
    simp only [pow_zero, Nat.lt_one_iff] at h
    simp [toLEBytes, fromLEBytes, h]
  | succ k ih =>
    have hdiv : n / 256 < 256 ^ k := by
      rw [Nat.div_lt_iff_lt_mul (by norm_num)]
      calc n < 256 ^ (k + 1) := h
        _ = 256 ^ k * 256 := by ring
    simp only [toLEBytes, fromLEBytes, ih hdiv]
    omega

theorem xor_allOnes {w x : Nat} (h : x < 2 ^ w) :
    x ^^^ (2 ^ w - 1) = 2 ^ w - 1 - x := by
  calc x ^^^ (2 ^ w - 1)
      = ((BitVec.ofNatLt x h) ^^^ BitVec.allOnes w).toNat := by
        rw [BitVec.toNat_xor]; simp
    _ = (~~~(BitVec.ofNatLt x h)).toNat := by
        rw [BitVec.xor_comm, BitVec.allOnes_xor]
    _ = 2 ^ w - 1 - x := by simp

theorem zigzag_lt {w p : Nat} (hw : 0 < w) (h : p < 2 ^ w) :
    zigzag w p < 2 ^ w := by
  have hsplit : 2 ^ w = 2 * 2 ^ (w - 1) := by
    rw [← pow_succ']
    congr 1
    omega
  unfold zigzag
  by_cases hp : p < 2 ^ (w - 1)
  · simp only [hp, if_pos, Nat.xor_zero]
    exact Nat.mod_lt _ (Nat.two_pow_pos w)
  · simp only [hp, if_neg, if_false]
    have h2p : (2 * p) % 2 ^ w = 2 * p - 2 ^ w := by
      rw [Nat.mod_eq_sub_mod (by omega), Nat.mod_eq_of_lt (by omega)]
    rw [h2p, xor_allOnes (by omega)]
    omega

theorem unzigzag_zigzag {w p : Nat} (hw : 0 < w) (h : p < 2 ^ w) :
    unzigzag w (zigzag w p) = p := by
  have hsplit : 2 ^ w = 2 * 2 ^ (w - 1) := by
    rw [← pow_succ']
    congr 1
    omega
  unfold zigzag unzigzag
  by_cases hp : p < 2 ^ (w - 1)
  · simp only [hp, if_pos, Nat.xor_zero]
    have h2p : (2 * p) % 2 ^ w = 2 * p := Nat.mod_eq_of_lt (by omega)
    rw [h2p]
    have : 2 * p % 2 = 0 := by omega
    simp [this]
  · simp only [hp, if_neg, if_false]
    have h2p : (2 * p) % 2 ^ w = 2 * p - 2 ^ w := by
      rw [Nat.mod_eq_sub_mod (by omega), Nat.mod_eq_of_lt (by omega)]
    rw [h2p, xor_allOnes (by omega)]
    have hu : 2 ^ w - 1 - (2 * p - 2 ^ w) = 2 * (2 ^ w - 1 - p) + 1 := by
      omega
    rw [hu]
    have hmod : (2 * (2 ^ w - 1 - p) + 1) % 2 = 1 := by omega
    have hdivv : (2 * (2 ^ w - 1 - p) + 1) / 2 = 2 ^ w - 1 - p := by omega
    simp only [hmod, if_pos, hdivv]
    rw [xor_allOnes (by omega)]
    omega

theorem length_deltas (M : Nat) (xs : List Nat) :
    ∀ prev, (deltas M prev xs).length = xs.length := by
  induction xs with
  | nil => intro prev; rfl
  | cons x xs ih => intro prev; simp [deltas, ih]

theorem length_deltaEncode (M : Nat) (xs : List Nat) :
    (deltaEncode M xs).length = xs.length := by
  cases xs with
  | nil => rfl
  | cons x xs => simp [deltaEncode, length_deltas]

theorem deltas_lt {M : Nat} (hM : 0 < M) (xs : List Nat) :
    ∀ prev, ∀ d ∈ deltas M prev xs, d < M := by
  induction xs with
  | nil => intro prev d hd; simp [deltas] at hd
  | cons x xs ih =>
    intro prev d hd
    simp only [deltas, List.mem_cons] at hd
    rcases hd with rfl | hd
    · exact Nat.mod_lt _ hM
    · exact ih x d hd

theorem deltaEncode_lt {M : Nat} (hM : 0 < M) {xs : List Nat}
    (hall : ∀ x ∈ xs, x < M) : ∀ d ∈ deltaEncode M xs, d < M := by
  cases xs with
  | nil => intro d hd; simp [deltaEncode] at hd
  | cons x xs =>
    intro d hd
    simp only [deltaEncode, List.mem_cons] at hd
    rcases hd with rfl | hd
    · exact hall d (by simp)
    · exact deltas_lt hM xs x d hd

theorem unDeltas_deltas {M : Nat} (xs : List Nat) :
    ∀ prev, prev < M → (∀ x ∈ xs, x < M) →
      unDeltas M prev (deltas M prev xs) = xs := by
  induction xs with
  | nil => intro prev _ _; rfl
  | cons x xs ih =>
    intro prev hprev hall
    have hx : x < M := hall x (by simp)
    have key : (prev + (x + M - prev) % M) % M = x := by
      rcases le_or_lt prev x with hle | hlt
      · have h1 : (x + M - prev) % M = x - prev := by
          rw [show x + M - prev = x - prev + M by omega, Nat.add_mod_right]
          exact Nat.mod_eq_of_lt (by omega)
        rw [h1, show prev + (x - prev) = x by omega]
        exact Nat.mod_eq_of_lt hx
      · have h1 : (x + M - prev) % M = x + M - prev :=
          Nat.mod_eq_of_lt (by omega)
        rw [h1, show prev + (x + M - prev) = x + M by omega,
          Nat.add_mod_right]
        exact Nat.mod_eq_of_lt hx
    simp only [deltas, unDeltas, key]
    exact congrArg (x :: ·)
      (ih x hx fun y hy => hall y (List.mem_cons_of_mem _ hy))

theorem deltaDecode_deltaEncode {M : Nat} {xs : List Nat}
    (hall : ∀ x ∈ xs, x < M) : deltaDecode M (deltaEncode M xs) = xs := by
  cases xs with
  | nil => rfl
  | cons x xs =>
    have hx : x < M := hall x (by simp)
    simp only [deltaEncode, deltaDecode, unDeltas]
    rw [show (0 + x) % M = x by rw [Nat.zero_add]; exact Nat.mod_eq_of_lt hx]
    exact congrArg (x :: ·)
      (unDeltas_deltas xs x hx fun y hy => hall y (by simp [hy]))

theorem length_packWords (k : Nat) (ws : List Nat) :
    (packWords k ws).length = k * ws.length := by
  induction ws with
  | nil => simp [packWords]
  | cons x xs ih =>
    simp [packWords, length_toLEBytes, ih]
    ring

theorem unpackWords_packWords {k : Nat} (hk : 0 < k) (ws : List Nat)
    (hall : ∀ x ∈ ws, x < 256 ^ k) : unpackWords k (packWords k ws) = ws := by
  obtain ⟨j, rfl⟩ : ∃ j, k = j + 1 := ⟨k - 1, by omega⟩
  induction ws with
  | nil => simp [packWords, unpackWords]
  | cons x xs ih =>
    have hx : x < 256 ^ (j + 1) := hall x (by simp)
    simp only [packWords, toLEBytes, List.cons_append]
    rw [unpackWords]
    have hj : j + 1 - 1 = j := by omega
    have hlj : (toLEBytes j (x / 256)).length = j := length_toLEBytes j _
    rw [hj, List.take_left' hlj, List.drop_left' hlj]
    have hdiv : x / 256 < 256 ^ j := by
      rw [Nat.div_lt_iff_lt_mul (by norm_num)]
      calc x < 256 ^ (j + 1) := hx
        _ = 256 ^ j * 256 := by ring
    have hhead : fromLEBytes (x % 256 :: toLEBytes j (x / 256)) = x := by
      simp only [fromLEBytes, fromLEBytes_toLEBytes hdiv]
      omega
    rw [hhead]
    exact congrArg (x :: ·)
      (ih fun y hy => hall y (List.mem_cons_of_mem _ hy))

theorem length_encodeBodyU (w k : Nat) (xs : List Nat) :
    (encodeBodyU w k xs).length = k * xs.length := by
  simp [encodeBodyU, length_packWords, length_deltaEncode]

theorem length_encodeBodyS (w k : Nat) (xs : List Int) :
    (encodeBodyS w k xs).length = k * xs.length := by
  simp [encodeBodyS, length_encodeBodyU]

theorem decodeBodyU_encodeBodyU {w k : Nat} (hw : 0 < w) (hk : 0 < k)
    (hpow : 2 ^ w = 256 ^ k) (xs : List Nat) (hall : ∀ x ∈ xs, x < 2 ^ w) :
    decodeBodyU w k (encodeBodyU w k xs) = xs := by
  unfold encodeBodyU decodeBodyU
  have hzz : ∀ y ∈ (deltaEncode (2 ^ w) xs).map (zigzag w), y < 256 ^ k := by
    intro y hy
    simp only [List.mem_map] at hy
    obtain ⟨d, hd, rfl⟩ := hy
    rw [← hpow]
    exact zigzag_lt hw (deltaEncode_lt (Nat.two_pow_pos w) hall d hd)
  rw [unpackWords_packWords hk _ hzz, List.map_map]
  have hcongr : (deltaEncode (2 ^ w) xs).map (unzigzag w ∘ zigzag w) =
      (deltaEncode (2 ^ w) xs).map id := by
    apply List.map_congr_left
    intro d hd
    exact unzigzag_zigzag hw (deltaEncode_lt (Nat.two_pow_pos w) hall d hd)
  rw [hcongr, List.map_id]
  exact deltaDecode_deltaEncode hall

theorem toPat_lt (w : Nat) (n : Int) : toPat w n < 2 ^ w := by
  unfold toPat
  have h2 : (0 : Int) < 2 ^ w := by positivity
  have hlt := Int.emod_lt_of_pos n h2
  have hge := Int.emod_nonneg n (ne_of_gt h2)
  have : ((2 : Int) ^ w) = ((2 ^ w : Nat) : Int) := by push_cast; ring
  omega

theorem fromPat_toPat {w : Nat} (hw : 0 < w) {n : Int}
    (hlo : -(2 ^ (w - 1)) ≤ n) (hhi : n < 2 ^ (w - 1)) :
    fromPat w (toPat w n) = n := by
  have hsplit : (2 : Int) ^ w = 2 * 2 ^ (w - 1) := by
    rw [← pow_succ']
    congr 1
    omega
  have hcast : ((2 ^ (w - 1) : Nat) : Int) = 2 ^ (w - 1) := by push_cast; ring
  have hcastw : ((2 ^ w : Nat) : Int) = 2 ^ w := by push_cast; ring
  unfold toPat fromPat
  rcases le_or_lt 0 n with h0 | h0
  · have hmod : n % 2 ^ w = n := Int.emod_eq_of_lt h0 (by omega)
    rw [hmod]
    have hcond : n.toNat < 2 ^ (w - 1) := by omega
    simp only [hcond, if_pos]
    omega
  · have hmod : n % 2 ^ w = n + 2 ^ w := by
      have h1 : (n + 2 ^ w * 1) % 2 ^ w = n % 2 ^ w :=
        Int.add_mul_emod_self_left n (2 ^ w) 1
      have h2 : (n + 2 ^ w * 1) % 2 ^ w = n + 2 ^ w := by
        rw [mul_one]
        exact Int.emod_eq_of_lt (by omega) (by omega)
      exact h1 ▸ h2
    rw [hmod]
    have hcond : ¬((n + 2 ^ w).toNat < 2 ^ (w - 1)) := by omega
    simp only [hcond, if_neg, if_false]
    omega

theorem decodeBodyS_encodeBodyS {w k : Nat} (hw : 0 < w) (hk : 0 < k)
    (hpow : 2 ^ w = 256 ^ k) (xs : List Int)
    (hall : ∀ x ∈ xs, -(2 ^ (w - 1)) ≤ x ∧ x < 2 ^ (w - 1)) :
    decodeBodyS w k (encodeBodyS w k xs) = xs := by
  unfold encodeBodyS decodeBodyS
  rw [decodeBodyU_encodeBodyU hw hk hpow _ ?_]
  · rw [List.map_map]
    have hcongr : xs.map ((fun u => fromPat w (unzigzag w u)) ∘
        fun x => zigzag w (toPat w x)) = xs.map id := by
      apply List.map_congr_left
      intro x hx
      simp only [Function.comp_apply, id]
      rw [unzigzag_zigzag hw (toPat_lt w x)]
      exact fromPat_toPat hw (hall x hx).1 (hall x hx).2
    rw [hcongr, List.map_id]
  · intro y hy
    simp only [List.mem_map] at hy
    obtain ⟨x, hx, rfl⟩ := hy
    exact zigzag_lt hw (toPat_lt w x)

theorem mkBlob_ne_nil (tag n : Nat) (extra payload : List Nat) :
    mkBlob tag n extra payload ≠ [] := by
  simp [mkBlob, MAGIC]

theorem length_mkBlob (tag n : Nat) (extra payload : List Nat) :
    (mkBlob tag n extra payload).length =
      16 + extra.length + payload.length := by
  simp [mkBlob, MAGIC, lz4Compress, length_toLEBytes]
  omega

theorem take5_mkBlob (tag n : Nat) (extra payload : List Nat) :
    (mkBlob tag n extra payload).take 5 = MAGIC := rfl

theorem getD5_mkBlob (tag n : Nat) (extra payload : List Nat) :
    (mkBlob tag n extra payload).getD 5 0 = VERSION := rfl

theorem getD6_mkBlob (tag n : Nat) (extra payload : List Nat) :
    (mkBlob tag n extra payload).getD 6 0 = CODEC_LZ4 := rfl

theorem getD7_mkBlob (tag n : Nat) (extra payload : List Nat) :
    (mkBlob tag n extra payload).getD 7 0 = tag := rfl

theorem drop8_mkBlob (tag n : Nat) (extra payload : List Nat) :
    (mkBlob tag n extra payload).drop 8 =
      toLEBytes 8 n ++ (extra ++ payload) := rfl

theorem drop16_mkBlob (tag n : Nat) (extra payload : List Nat) :
    (mkBlob tag n extra payload).drop 16 = extra ++ payload := by
  have h : (mkBlob tag n extra payload).drop 16 =
      ((mkBlob tag n extra payload).drop 8).drop 8 := by
    rw [List.drop_drop]
  rw [h, drop8_mkBlob, List.drop_left' (length_toLEBytes 8 n)]

theorem count_mkBlob (tag n : Nat) (extra payload : List Nat)
    (hn : n < 2 ^ 64) :
    fromLEBytes (((mkBlob tag n extra payload).drop 8).take 8) = n := by
  rw [drop8_mkBlob, List.take_left' (length_toLEBytes 8 n)]
  exact fromLEBytes_toLEBytes (by norm_num at hn ⊢; omega)

theorem parseHeader_mkBlob (expected tag n : Nat) (extra payload : List Nat)
    (hn : n < 2 ^ 64) :
    parseHeader expected (mkBlob tag n extra payload) =
      if expected = tag then .ok (n, extra ++ payload)
      else .error (.wrongType expected tag) := by
  unfold parseHeader
  rw [if_neg (by rw [length_mkBlob]; omega)]
  rw [take5_mkBlob, if_neg (by simp)]
  rw [getD5_mkBlob, if_neg (by simp)]
  rw [getD6_mkBlob, if_neg (by simp)]
  rw [getD7_mkBlob]
  by_cases h : expected = tag
  · rw [if_neg (by omega), if_pos h,
      count_mkBlob tag n extra payload hn, drop16_mkBlob]
  · rw [if_pos (by omega), if_neg h]

theorem decompress_compress_i64 {xs : List Int}
    (hall : ∀ x ∈ xs, -(2 ^ 63) ≤ x ∧ x < 2 ^ 63)
    (hlen : xs.length < 2 ^ 64) :
    decompress_i64 (compress_i64 xs) = .ok xs := by
  by_cases hxs : xs = []
  · subst hxs; rfl
  · unfold compress_i64 decompress_i64
    rw [if_neg hxs, if_neg (mkBlob_ne_nil _ _ _ _)]
    rw [parseHeader_mkBlob _ _ _ _ _ hlen, if_pos rfl]
    simp only [List.nil_append, lz4Decompress]
    rw [if_neg (by rw [length_encodeBodyS]; omega)]
    rw [decodeBodyS_encodeBodyS (by norm_num) (by norm_num) (by norm_num)
      xs hall]

theorem decompress_compress_u64 {xs : List Nat}
    (hall : ∀ x ∈ xs, x < 2 ^ 64) (hlen : xs.length < 2 ^ 64) :
    decompress_u64 (compress_u64 xs) = .ok xs := by
  by_cases hxs : xs = []
  · subst hxs; rfl
  · unfold compress_u64 decompress_u64
    rw [if_neg hxs, if_neg (mkBlob_ne_nil _ _ _ _)]
    rw [parseHeader_mkBlob _ _ _ _ _ hlen, if_pos rfl]
    simp only [List.nil_append, lz4Decompress]
    rw [if_neg (by rw [length_encodeBodyU]; omega)]
    rw [decodeBodyU_encodeBodyU (by norm_num) (by norm_num) (by norm_num)
      xs hall]

theorem decompress_compress_i32 {xs : List Int}
    (hall : ∀ x ∈ xs, -(2 ^ 31) ≤ x ∧ x < 2 ^ 31)
    (hlen : xs.length < 2 ^ 64) :
    decompress_i32 (compress_i32 xs) = .ok xs := by
  by_cases hxs : xs = []
  · subst hxs; rfl
  · unfold compress_i32 decompress_i32
    rw [if_neg hxs, if_neg (mkBlob_ne_nil _ _ _ _)]
    rw [parseHeader_mkBlob _ _ _ _ _ hlen, if_pos rfl]
    simp only [List.nil_append, lz4Decompress]
    rw [if_neg (by rw [length_encodeBodyS]; omega)]
    rw [decodeBodyS_encodeBodyS (by norm_num) (by norm_num) (by norm_num)
      xs hall]

theorem decompress_compress_u32 {xs : List Nat}
    (hall : ∀ x ∈ xs, x < 2 ^ 32) (hlen : xs.length < 2 ^ 64) :
    decompress_u32 (compress_u32 xs) = .ok xs := by
  by_cases hxs : xs = []
  · subst hxs; rfl
  · unfold compress_u32 decompress_u32
    rw [if_neg hxs, if_neg (mkBlob_ne_nil _ _ _ _)]
    rw [parseHeader_mkBlob _ _ _ _ _ hlen, if_pos rfl]
    simp only [List.nil_append, lz4Decompress]
    rw [if_neg (by rw [length_encodeBodyU]; omega)]
    rw [decodeBodyU_encodeBodyU (by norm_num) (by norm_num) (by norm_num)
      xs hall]

theorem decompress_compress_bytes {bs : List Nat}
    (hlen : bs.length < 2 ^ 64) :
    decompress_bytes (compress_bytes bs) = .ok bs := by
  by_cases hbs : bs = []
  · subst hbs; rfl
  · unfold compress_bytes decompress_bytes
    rw [if_neg hbs, if_neg (mkBlob_ne_nil _ _ _ _)]
    rw [parseHeader_mkBlob _ _ _ _ _ hlen, if_pos rfl]
    simp only [List.nil_append, lz4Decompress]
    rw [if_neg (by omega)]

theorem getD_map_eq (f : α → β) (l : List α) (i : Nat) (d : α) :
    (l.map f).getD i (f d) = f (l.getD i d) := by
  induction l generalizing i with
  | nil => simp [List.getD]
  | cons a l ih =>
    cases i with
    | zero => simp [List.getD]
    | succ i => simp [List.getD]

theorem mapExcept_quantize_ok {lo hi : Int} {s : ℚ} {xs : List ℚ}
    {qs : List Int}
    (h : mapExcept (quantizeTo lo hi s) xs = .ok qs) :
    qs = xs.map (fun v => round (v * s)) ∧ ∀ q ∈ qs, lo ≤ q ∧ q ≤ hi := by
  induction xs generalizing qs with
  | nil =>
    simp only [mapExcept, Except.ok.injEq] at h
    subst h
    simp
  | cons v vs ih =>
    simp only [mapExcept, quantizeTo] at h
    by_cases hov : round (v * s) < lo ∨ hi < round (v * s)
    · rw [if_pos hov] at h
      exact absurd h (by simp)
    · rw [if_neg hov] at h
      cases hrec : mapExcept (quantizeTo lo hi s) vs with
      | error e =>
        rw [hrec] at h
        exact absurd h (by simp)
      | ok qs' =>
        rw [hrec] at h
        simp only [Except.ok.injEq] at h
        subst h
        obtain ⟨htail, hrange⟩ := ih hrec
        refine ⟨by simp [htail], ?_⟩
        intro q hq
        rcases List.mem_cons.mp hq with rfl | hq
        · omega
        · exact hrange q hq

theorem mapExcept_quantize_overflow {lo hi : Int} {s : ℚ} {xs : List ℚ}
    (h : ∃ v ∈ xs, round (v * s) < lo ∨ hi < round (v * s)) :
    mapExcept (quantizeTo lo hi s) xs = .error .quantizationOverflow := by
  induction xs with
  | nil => simp at h
  | cons v vs ih =>
    simp only [mapExcept, quantizeTo]
    by_cases hov : round (v * s) < lo ∨ hi < round (v * s)
    · rw [if_pos hov]
    · rw [if_neg hov]
      have htail : ∃ u ∈ vs, round (u * s) < lo ∨ hi < round (u * s) := by
        obtain ⟨u, hu, hur⟩ := h
        rcases List.mem_cons.mp hu with rfl | hu
        · exact absurd hur hov
        · exact ⟨u, hu, hur⟩
      rw [ih htail]

theorem quant_err {s : ℚ} (hs : 0 < s) (v : ℚ) :
    |((round (v * s) : ℤ) : ℚ) / s - v| ≤ 1 / s := by
  have h1 : ((round (v * s) : ℤ) : ℚ) / s - v =
      (((round (v * s) : ℤ) : ℚ) - v * s) / s := by
    field_simp
    ring
  rw [h1, abs_div, abs_of_pos hs]
  have h2 : |((round (v * s) : ℤ) : ℚ) - v * s| ≤ 1 / 2 := by
    rw [abs_sub_comm]
    exact abs_sub_round (v * s)
  calc |((round (v * s) : ℤ) : ℚ) - v * s| / s ≤ (1 / 2) / s :=
        (div_le_div_iff_of_pos_right hs).mpr h2
    _ ≤ 1 / s := (div_le_div_iff_of_pos_right hs).mpr (by norm_num)

theorem length_f64ToLEBytes (q : ℚ) : (f64ToLEBytes q).length = 8 :=
  length_toLEBytes 8 _

theorem decompress_compress_f64 {xs : List ℚ} {s : ℚ} {b : List Nat}
    (hrepr : f64FromLEBytes (f64ToLEBytes s) = s)
    (hlen : xs.length < 2 ^ 64)
    (henc : compress_f64 xs (some s) = .ok b) :
    decompress_f64 b none =
      .ok (xs.map fun v => ((round (v * s) : ℤ) : ℚ) / s) := by
  by_cases hxs : xs = []
  · subst hxs
    rw [show compress_f64 [] (some s) = (.ok [] : Except CodecError (List Nat))
      from rfl] at henc
    simp only [Except.ok.injEq] at henc
    subst henc
    rfl
  · unfold compress_f64 at henc
    rw [if_neg hxs] at henc
    simp only [Option.getD_some] at henc
    cases hq : mapExcept (quantizeTo (-(2 ^ 63)) (2 ^ 63 - 1) s) xs with
    | error e =>
      rw [hq] at henc
      exact absurd henc (by simp)
    | ok qs =>
      rw [hq] at henc
      simp only [Except.ok.injEq] at henc
      subst henc
      obtain ⟨hqs, hrange⟩ := mapExcept_quantize_ok hq
      have hql : qs.length = xs.length := by rw [hqs, List.length_map]
      unfold decompress_f64
      rw [if_neg (mkBlob_ne_nil _ _ _ _)]
      rw [parseHeader_mkBlob _ _ _ _ _ hlen, if_pos rfl]
      simp only [lz4Decompress, Option.getD_none]
      rw [if_neg (by
        rw [List.length_append, length_f64ToLEBytes]
        omega)]
      rw [List.take_left' (length_f64ToLEBytes s), hrepr,
        List.drop_left' (length_f64ToLEBytes s)]
      rw [if_neg (by rw [length_encodeBodyS]; omega)]
      rw [decodeBodyS_encodeBodyS (by norm_num) (by norm_num) (by norm_num)
        qs (fun q hq' => by
          have h1 := (hrange q hq').1
          have h2 := (hrange q hq').2
          norm_num
          omega)]
      rw [hqs, List.map_map]
      rfl

theorem decompress_compress_f32 {xs : List ℚ} {s : ℚ} {b : List Nat}
    (hrepr : f64FromLEBytes (f64ToLEBytes s) = s)
    (hlen : xs.length < 2 ^ 64)
    (henc : compress_f32 xs (some s) = .ok b) :
    decompress_f32 b none =
      .ok (xs.map fun v => ((round (v * s) : ℤ) : ℚ) / s) := by
  by_cases hxs : xs = []
  · subst hxs
    rw [show compress_f32 [] (some s) = (.ok [] : Except CodecError (List Nat))
      from rfl] at henc
    simp only [Except.ok.injEq] at henc
    subst henc
    rfl
  · unfold compress_f32 at henc
    rw [if_neg hxs] at henc
    simp only [Option.getD_some] at henc
    cases hq : mapExcept (quantizeTo (-(2 ^ 31)) (2 ^ 31 - 1) s) xs with
    | error e =>
      rw [hq] at henc
      exact absurd henc (by simp)
    | ok qs =>
      rw [hq] at henc
      simp only [Except.ok.injEq] at henc
      subst henc
      obtain ⟨hqs, hrange⟩ := mapExcept_quantize_ok hq
      have hql : qs.length = xs.length := by rw [hqs, List.length_map]
      unfold decompress_f32
      rw [if_neg (mkBlob_ne_nil _ _ _ _)]
      rw [parseHeader_mkBlob _ _ _ _ _ hlen, if_pos rfl]
      simp only [lz4Decompress, Option.getD_none]
      rw [if_neg (by
        rw [List.length_append, length_f64ToLEBytes]
        omega)]
      rw [List.take_left' (length_f64ToLEBytes s), hrepr,
        List.drop_left' (length_f64ToLEBytes s)]
      rw [if_neg (by rw [length_encodeBodyS]; omega)]
      rw [decodeBodyS_encodeBodyS (by norm_num) (by norm_num) (by norm_num)
        qs (fun q hq' => by
          have h1 := (hrange q hq').1
          have h2 := (hrange q hq').2
          norm_num
          omega)]
      rw [hqs, List.map_map]
      rfl

theorem mapExcept_map {f : β → Except CodecError γ} {g : α → β}
    (l : List α) : mapExcept f (l.map g) = mapExcept (fun a => f (g a)) l := by
  induction l with
  | nil => rfl
  | cons a l ih => simp only [List.map_cons, mapExcept, ih]

theorem mapExcept_congr_ok {f : α → Except CodecError β} {g : α → β}
    {l : List α} (h : ∀ x ∈ l, f x = .ok (g x)) :
    mapExcept f l = .ok (l.map g) := by
  induction l with
  | nil => rfl
  | cons a l ih =>
    simp only [mapExcept, h a (by simp), List.map_cons]
    rw [ih fun x hx => h x (List.mem_cons_of_mem _ hx)]

theorem mapExcept_ok_getD {f : α → Except CodecError β} {xs : List α}
    {ys : List β} (d : α) (e : β) (h : mapExcept f xs = .ok ys) :
    ys.length = xs.length ∧
      ∀ i, i < xs.length → f (xs.getD i d) = .ok (ys.getD i e) := by
  induction xs generalizing ys with
  | nil =>
    simp only [mapExcept, Except.ok.injEq] at h
    subst h
    simp
  | cons a as ih =>
    simp only [mapExcept] at h
    cases hfa : f a with
    | error err =>
      rw [hfa] at h
      exact absurd h (by simp)
    | ok b =>
      rw [hfa] at h
      cases hrec : mapExcept f as with
      | error err =>
        rw [hrec] at h
        exact absurd h (by simp)
      | ok bs =>
        rw [hrec] at h
        simp only [Except.ok.injEq] at h
        subst h
        obtain ⟨hl, hi⟩ := ih hrec
        refine ⟨by simp [hl], ?_⟩
        intro i hilt
        cases i with
        | zero => simpa [List.getD] using hfa
        | succ i => simpa [List.getD] using hi i (by simpa using hilt)

theorem parseHeader_mkBlob_wrongType {expected tag : Nat} (n : Nat)
    (extra payload : List Nat) (hne : expected ≠ tag) :
    parseHeader expected (mkBlob tag n extra payload) =
      .error (.wrongType expected tag) := by
  unfold parseHeader
  rw [if_neg (by rw [length_mkBlob]; omega)]
  rw [take5_mkBlob, if_neg (by simp)]
  rw [getD5_mkBlob, if_neg (by simp)]
  rw [getD6_mkBlob, if_neg (by simp)]
  rw [getD7_mkBlob, if_pos (by omega)]

theorem parseHeader_truncated {expected : Nat} {b : List Nat}
    (hk : b.length < 16) : parseHeader expected b = .error .truncatedBlob := by
  unfold parseHeader
  rw [if_pos hk]

theorem magic_set_ne {j c : Nat} (hj : j < 5) (hc : c ≠ MAGIC.getD j 0) :
    MAGIC.set j c ≠ MAGIC := by
  interval_cases j <;> simp [MAGIC, List.getD] at hc ⊢ <;> omega

theorem parseHeader_set_magic {tag : Nat} (n : Nat)
    (extra payload : List Nat) {j c : Nat} (hj : j < 5)
    (hc : c ≠ MAGIC.getD j 0) (expected : Nat) :
    parseHeader expected ((mkBlob tag n extra payload).set j c) =
      .error .badMagic := by
  have hset : (mkBlob tag n extra payload).set j c =
      MAGIC.set j c ++ (VERSION :: CODEC_LZ4 :: tag ::
        (toLEBytes 8 n ++ (extra ++ lz4Compress payload))) := by
    unfold mkBlob
    rw [List.set_append_left _ _ (by simp [MAGIC]; omega)]
  unfold parseHeader
  rw [hset]
  have hlen5 : (MAGIC.set j c).length = 5 := by simp [MAGIC]
  rw [if_neg (by
    simp only [List.length_append, List.length_cons, hlen5, length_toLEBytes]
    omega)]
  rw [List.take_left' hlen5, if_pos (magic_set_ne hj hc)]

theorem set5_mkBlob (tag n : Nat) (extra payload : List Nat) (v : Nat) :
    (mkBlob tag n extra payload).set 5 v =
      MAGIC ++ v :: CODEC_LZ4 :: tag ::
        (toLEBytes 8 n ++ (extra ++ lz4Compress payload)) := rfl

theorem parseHeader_set_version {tag : Nat} (n : Nat)
    (extra payload : List Nat) {v : Nat} (hv : v ≠ VERSION)
    (expected : Nat) :
    parseHeader expected ((mkBlob tag n extra payload).set 5 v) =
      .error (.badVersion v) := by
  unfold parseHeader
  rw [set5_mkBlob]
  rw [if_neg (by
    simp only [List.length_append, List.length_cons, List.length_append,
      length_toLEBytes]
    simp only [MAGIC, List.length_cons, List.length_nil]
    omega)]
  rw [show (MAGIC ++ v :: CODEC_LZ4 :: tag ::
      (toLEBytes 8 n ++ (extra ++ lz4Compress payload))).take 5 = MAGIC
    from rfl]
  rw [if_neg (by simp)]
  rw [show (MAGIC ++ v :: CODEC_LZ4 :: tag ::
      (toLEBytes 8 n ++ (extra ++ lz4Compress payload))).getD 5 0 = v
    from rfl]
  rw [if_pos hv]

theorem decompress_i64_parse_error {b : List Nat} {e : CodecError}
    (hb : b ≠ []) (hp : parseHeader TAG_I64 b = .error e) :
    decompress_i64 b = .error e := by
  unfold decompress_i64
  rw [if_neg hb, hp]

theorem decompress_u64_parse_error {b : List Nat} {e : CodecError}
    (hb : b ≠ []) (hp : parseHeader TAG_U64 b = .error e) :
    decompress_u64 b = .error e := by
  unfold decompress_u64
  rw [if_neg hb, hp]

theorem decompress_i32_parse_error {b : List Nat} {e : CodecError}
    (hb : b ≠ []) (hp : parseHeader TAG_I32 b = .error e) :
    decompress_i32 b = .error e := by
  unfold decompress_i32
  rw [if_neg hb, hp]

theorem decompress_u32_parse_error {b : List Nat} {e : CodecError}
    (hb : b ≠ []) (hp : parseHeader TAG_U32 b = .error e) :
    decompress_u32 b = .error e := by
  unfold decompress_u32
  rw [if_neg hb, hp]

theorem decompress_bytes_parse_error {b : List Nat} {e : CodecError}
    (hb : b ≠ []) (hp : parseHeader TAG_BYTES b = .error e) :
    decompress_bytes b = .error e := by
  unfold decompress_bytes
  rw [if_neg hb, hp]

theorem decompress_f64_parse_error {b : List Nat} {e : CodecError}
    (sc : Option ℚ) (hb : b ≠ []) (hp : parseHeader TAG_F64 b = .error e) :
    decompress_f64 b sc = .error e := by
  unfold decompress_f64
  rw [if_neg hb, hp]

theorem decompress_f32_parse_error {b : List Nat} {e : CodecError}
    (sc : Option ℚ) (hb : b ≠ []) (hp : parseHeader TAG_F32 b = .error e) :
    decompress_f32 b sc = .error e := by
  unfold decompress_f32
  rw [if_neg hb, hp]

theorem decodeAs_parse_error {u : ElemType} {b : List Nat} {e : CodecError}
    (hb : b ≠ []) (hp : parseHeader (tagOfType u) b = .error e) :
    decodeAs u b = .error e := by
  cases u
  · simp only [tagOfType] at hp
    simp only [decodeAs, decompress_i64_parse_error hb hp, Except.map]
  · simp only [tagOfType] at hp
    simp only [decodeAs, decompress_u64_parse_error hb hp, Except.map]
  · simp only [tagOfType] at hp
    simp only [decodeAs, decompress_i32_parse_error hb hp, Except.map]
  · simp only [tagOfType] at hp
    simp only [decodeAs, decompress_u32_parse_error hb hp, Except.map]
  · simp only [tagOfType] at hp
    simp only [decodeAs, decompress_f64_parse_error none hb hp, Except.map]
  · simp only [tagOfType] at hp
    simp only [decodeAs, decompress_f32_parse_error none hb hp, Except.map]
  · simp only [tagOfType] at hp
    simp only [decodeAs, decompress_bytes_parse_error hb hp, Except.map]

theorem encodeSample_shape {s : Sample} {b : List Nat}
    (h : encodeSample s = .ok b) (hb : b ≠ []) :
    ∃ n extra payload, b = mkBlob (tagOfType s.elemType) n extra payload := by
  cases s with
  | i64s xs =>
    simp only [encodeSample, Except.ok.injEq] at h
    subst h
    simp only [Sample.elemType, tagOfType]
    unfold compress_i64 at hb ⊢
    by_cases hxs : xs = []
    · rw [if_pos hxs] at hb
      exact absurd rfl hb
    · rw [if_neg hxs]
      exact ⟨xs.length, [], encodeBodyS 64 8 xs, rfl⟩
  | u64s xs =>
    simp only [encodeSample, Except.ok.injEq] at h
    subst h
    simp only [Sample.elemType, tagOfType]
    unfold compress_u64 at hb ⊢
    by_cases hxs : xs = []
    · rw [if_pos hxs] at hb
      exact absurd rfl hb
    · rw [if_neg hxs]
      exact ⟨xs.length, [], encodeBodyU 64 8 xs, rfl⟩
  | i32s xs =>
    simp only [encodeSample, Except.ok.injEq] at h
    subst h
    simp only [Sample.elemType, tagOfType]
    unfold compress_i32 at hb ⊢
    by_cases hxs : xs = []
    · rw [if_pos hxs] at hb
      exact absurd rfl hb
    · rw [if_neg hxs]
      exact ⟨xs.length, [], encodeBodyS 32 4 xs, rfl⟩
  | u32s xs =>
    simp only [encodeSample, Except.ok.injEq] at h
    subst h
    simp only [Sample.elemType, tagOfType]
    unfold compress_u32 at hb ⊢
    by_cases hxs : xs = []
    · rw [if_pos hxs] at hb
      exact absurd rfl hb
    · rw [if_neg hxs]
      exact ⟨xs.length, [], encodeBodyU 32 4 xs, rfl⟩
  | f64s xs sc =>
    simp only [encodeSample] at h
    simp only [Sample.elemType, tagOfType]
    unfold compress_f64 at h
    by_cases hxs : xs = []
    · rw [if_pos hxs] at h
      simp only [Except.ok.injEq] at h
      exact absurd h.symm hb
    · rw [if_neg hxs] at h
      cases hq : mapExcept (quantizeTo (-(2 ^ 63)) (2 ^ 63 - 1)
          (sc.getD DEFAULT_F64_SCALE)) xs with
      | error e =>
        rw [hq] at h
        exact absurd h (by simp)
      | ok qs =>
        rw [hq] at h
        simp only [Except.ok.injEq] at h
        exact ⟨xs.length, f64ToLEBytes (sc.getD DEFAULT_F64_SCALE),
          encodeBodyS 64 8 qs, h.symm⟩
  | f32s xs sc =>
    simp only [encodeSample] at h
    simp only [Sample.elemType, tagOfType]
    unfold compress_f32 at h
    by_cases hxs : xs = []
    · rw [if_pos hxs] at h
      simp only [Except.ok.injEq] at h
      exact absurd h.symm hb
    · rw [if_neg hxs] at h
      cases hq : mapExcept (quantizeTo (-(2 ^ 31)) (2 ^ 31 - 1)
          (sc.getD DEFAULT_F32_SCALE)) xs with
      | error e =>
        rw [hq] at h
        exact absurd h (by simp)
      | ok qs =>
        rw [hq] at h
        simp only [Except.ok.injEq] at h
        exact ⟨xs.length, f64ToLEBytes (sc.getD DEFAULT_F32_SCALE),
          encodeBodyS 32 4 qs, h.symm⟩
  | bytes bs =>
    simp only [encodeSample, Except.ok.injEq] at h
    subst h
    simp only [Sample.elemType, tagOfType]
    unfold compress_bytes at hb ⊢
    by_cases hbs : bs = []
    · rw [if_pos hbs] at hb
      exact absurd rfl hb
    · rw [if_neg hbs]
      exact ⟨bs.length, [], bs, rfl⟩

theorem tagOfType_inj : ∀ u t : ElemType, u ≠ t → tagOfType u ≠ tagOfType t :=
  by decide

theorem parseHeader_header_append (expected tag n : Nat) (X : List Nat) :
    parseHeader expected
      ((MAGIC ++ VERSION :: CODEC_LZ4 :: tag :: toLEBytes 8 n) ++ X) =
      if expected = tag then .ok (fromLEBytes (toLEBytes 8 n), X)
      else .error (.wrongType expected tag) := by
  unfold parseHeader
  rw [if_neg (by
    simp only [List.length_append, List.length_cons, length_toLEBytes]
    simp only [MAGIC, List.length_cons, List.length_nil]
    omega)]
  rw [show ((MAGIC ++ VERSION :: CODEC_LZ4 :: tag :: toLEBytes 8 n) ++
      X).take 5 = MAGIC from rfl]
  rw [if_neg (by simp)]
  rw [show ((MAGIC ++ VERSION :: CODEC_LZ4 :: tag :: toLEBytes 8 n) ++
      X).getD 5 0 = VERSION from rfl]
  rw [if_neg (by simp)]
  rw [show ((MAGIC ++ VERSION :: CODEC_LZ4 :: tag :: toLEBytes 8 n) ++
      X).getD 6 0 = CODEC_LZ4 from rfl]
  rw [if_neg (by simp)]
  rw [show ((MAGIC ++ VERSION :: CODEC_LZ4 :: tag :: toLEBytes 8 n) ++
      X).getD 7 0 = tag from rfl]
  rw [show (((MAGIC ++ VERSION :: CODEC_LZ4 :: tag :: toLEBytes 8 n) ++
      X).drop 8).take 8 = toLEBytes 8 n from rfl]
  rw [show ((MAGIC ++ VERSION :: CODEC_LZ4 :: tag :: toLEBytes 8 n) ++
      X).drop 16 = X from rfl]
  by_cases h : expected = tag
  · rw [if_neg (by omega), if_pos h]
  · rw [if_pos (by omega), if_neg h]

theorem mkBlob_eq_header_append (tag n : Nat) (extra payload : List Nat) :
    mkBlob tag n extra payload =
      (MAGIC ++ VERSION :: CODEC_LZ4 :: tag :: toLEBytes 8 n) ++
        (extra ++ lz4Compress payload) := by
  simp [mkBlob, List.append_assoc]

theorem take_mkBlob_of_ge (tag n : Nat) (extra payload : List Nat)
    {k : Nat} (h16 : 16 ≤ k) :
    (mkBlob tag n extra payload).take k =
      (MAGIC ++ VERSION :: CODEC_LZ4 :: tag :: toLEBytes 8 n) ++
        ((extra ++ lz4Compress payload).take (k - 16)) := by
  have hlen : (MAGIC ++ VERSION :: CODEC_LZ4 :: tag ::
      toLEBytes 8 n).length = 16 := by
    simp only [List.length_append, List.length_cons, length_toLEBytes]
    simp only [MAGIC, List.length_cons, List.length_nil]
  rw [mkBlob_eq_header_append, List.take_append_eq_append_take, hlen,
    List.take_of_length_le (by omega)]

theorem mem_packWords_lt {k : Nat} {ws : List Nat} {b : Nat}
    (h : b ∈ packWords k ws) : b < 256 := by
  induction ws with
  | nil => simp [packWords] at h
  | cons x xs ih =>
    simp only [packWords, List.mem_append] at h
    rcases h with h | h
    · exact mem_toLEBytes_lt h
    · exact ih h

theorem mem_mkBlob_lt {tag n : Nat} {extra payload : List Nat} {b : Nat}
    (htag : tag < 256) (hextra : ∀ x ∈ extra, x < 256)
    (hpl : ∀ x ∈ payload, x < 256)
    (h : b ∈ mkBlob tag n extra payload) : b < 256 := by
  unfold mkBlob lz4Compress at h
  rcases List.mem_append.mp h with h | h
  · simp only [MAGIC, List.mem_cons, List.not_mem_nil, or_false] at h
    omega
  · rcases List.mem_cons.mp h with rfl | h
    · norm_num [VERSION]
    · rcases List.mem_cons.mp h with rfl | h
      · norm_num [CODEC_LZ4]
      · rcases List.mem_cons.mp h with rfl | h
        · exact htag
        · rcases List.mem_append.mp h with h | h
          · exact mem_toLEBytes_lt h
          · rcases List.mem_append.mp h with h | h
            · exact hextra b h
            · exact hpl b h

theorem batch_roundtrip_i64 {xss : List (List Int)}
    (h : ∀ xs ∈ xss, (∀ x ∈ xs, -(2 ^ 63) ≤ x ∧ x < 2 ^ 63) ∧
      xs.length < 2 ^ 64) :
    decompress_many_i64 (compress_many_i64 xss) = .ok xss := by
  unfold compress_many_i64 decompress_many_i64
  rw [mapExcept_map]
  rw [mapExcept_congr_ok (g := id) fun xs hx =>
    (decompress_compress_i64 (h xs hx).1 (h xs hx).2).trans (by rw [id])]
  rw [List.map_id]

theorem batch_roundtrip_u64 {xss : List (List Nat)}
    (h : ∀ xs ∈ xss, (∀ x ∈ xs, x < 2 ^ 64) ∧ xs.length < 2 ^ 64) :
    decompress_many_u64 (compress_many_u64 xss) = .ok xss := by
  unfold compress_many_u64 decompress_many_u64
  rw [mapExcept_map]
  rw [mapExcept_congr_ok (g := id) fun xs hx =>
    (decompress_compress_u64 (h xs hx).1 (h xs hx).2).trans (by rw [id])]
  rw [List.map_id]

theorem batch_roundtrip_i32 {xss : List (List Int)}
    (h : ∀ xs ∈ xss, (∀ x ∈ xs, -(2 ^ 31) ≤ x ∧ x < 2 ^ 31) ∧
      xs.length < 2 ^ 64) :
    decompress_many_i32 (compress_many_i32 xss) = .ok xss := by
  unfold compress_many_i32 decompress_many_i32
  rw [mapExcept_map]
  rw [mapExcept_congr_ok (g := id) fun xs hx =>
    (decompress_compress_i32 (h xs hx).1 (h xs hx).2).trans (by rw [id])]
  rw [List.map_id]

theorem batch_roundtrip_u32 {xss : List (List Nat)}
    (h : ∀ xs ∈ xss, (∀ x ∈ xs, x < 2 ^ 32) ∧ xs.length < 2 ^ 64) :
    decompress_many_u32 (compress_many_u32 xss) = .ok xss := by
  unfold compress_many_u32 decompress_many_u32
  rw [mapExcept_map]
  rw [mapExcept_congr_ok (g := id) fun xs hx =>
    (decompress_compress_u32 (h xs hx).1 (h xs hx).2).trans (by rw [id])]
  rw [List.map_id]

theorem encodeSample_shape_float {s : Sample} {b : List Nat}
    (h : encodeSample s = .ok b) (hb : b ≠ [])
    (hf : s.elemType = .tf64 ∨ s.elemType = .tf32) :
    ∃ n extra payload,
      b = mkBlob (tagOfType s.elemType) n extra payload ∧
        extra.length = 8 := by
  cases s with
  | i64s xs => rcases hf with hf | hf <;> simp [Sample.elemType] at hf
  | u64s xs => rcases hf with hf | hf <;> simp [Sample.elemType] at hf
  | i32s xs => rcases hf with hf | hf <;> simp [Sample.elemType] at hf
  | u32s xs => rcases hf with hf | hf <;> simp [Sample.elemType] at hf
  | bytes bs => rcases hf with hf | hf <;> simp [Sample.elemType] at hf
  | f64s xs sc =>
    simp only [encodeSample] at h
    simp only [Sample.elemType, tagOfType]
    unfold compress_f64 at h
    by_cases hxs : xs = []
    · rw [if_pos hxs] at h
      simp only [Except.ok.injEq] at h
      exact absurd h.symm hb
    · rw [if_neg hxs] at h
      cases hq : mapExcept (quantizeTo (-(2 ^ 63)) (2 ^ 63 - 1)
          (sc.getD DEFAULT_F64_SCALE)) xs with
      | error e =>
        rw [hq] at h
        exact absurd h (by simp)
      | ok qs =>
        rw [hq] at h
        simp only [Except.ok.injEq] at h
        exact ⟨xs.length, f64ToLEBytes (sc.getD DEFAULT_F64_SCALE),
          encodeBodyS 64 8 qs, h.symm, length_f64ToLEBytes _⟩
  | f32s xs sc =>
    simp only [encodeSample] at h
    simp only [Sample.elemType, tagOfType]
    unfold compress_f32 at h
    by_cases hxs : xs = []
    · rw [if_pos hxs] at h
      simp only [Except.ok.injEq] at h
      exact absurd h.symm hb
    · rw [if_neg hxs] at h
      cases hq : mapExcept (quantizeTo (-(2 ^ 31)) (2 ^ 31 - 1)
          (sc.getD DEFAULT_F32_SCALE)) xs with
      | error e =>
        rw [hq] at h
        exact absurd h (by simp)
      | ok qs =>
        rw [hq] at h
        simp only [Except.ok.injEq] at h
        exact ⟨xs.length, f64ToLEBytes (sc.getD DEFAULT_F32_SCALE),
          encodeBodyS 32 4 qs, h.symm, length_f64ToLEBytes _⟩

theorem take_mkBlob_ne_nil (tag n : Nat) (extra payload : List Nat)
    {k : Nat} (hk : 0 < k) : (mkBlob tag n extra payload).take k ≠ [] := by
  intro h
  rcases List.take_eq_nil_iff.mp h with h | h
  · omega
  · exact mkBlob_ne_nil tag n extra payload h

theorem decompress_f64_take_truncated {n : Nat} {extra payload : List Nat}
    {k : Nat} (h16 : 16 ≤ k) (hk : k < 24)
    (sc : Option ℚ) :
    decompress_f64 ((mkBlob TAG_F64 n extra payload).take k) sc =
      .error .truncatedBlob := by
  rw [take_mkBlob_of_ge TAG_F64 n extra payload h16]
  unfold decompress_f64
  rw [if_neg (by simp [MAGIC])]
  rw [parseHeader_header_append, if_pos rfl]
  have hrl : ((extra ++ lz4Compress payload).take (k - 16)).length < 8 := by
    rw [List.length_take]
    omega
  simp only [lz4Decompress]
  rw [if_pos hrl]

theorem decompress_f32_take_truncated {n : Nat} {extra payload : List Nat}
    {k : Nat} (h16 : 16 ≤ k) (hk : k < 24)
    (sc : Option ℚ) :
    decompress_f32 ((mkBlob TAG_F32 n extra payload).take k) sc =
      .error .truncatedBlob := by
  rw [take_mkBlob_of_ge TAG_F32 n extra payload h16]
  unfold decompress_f32
  rw [if_neg (by simp [MAGIC])]
  rw [parseHeader_header_append, if_pos rfl]
  have hrl : ((extra ++ lz4Compress payload).take (k - 16)).length < 8 := by
    rw [List.length_take]
    omega
  simp only [lz4Decompress]
  rw [if_pos hrl]

theorem mem_encodeBodyS_lt {w k : Nat} {xs : List Int} {b : Nat}
    (h : b ∈ encodeBodyS w k xs) : b < 256 := by
  unfold encodeBodyS encodeBodyU at h
  exact mem_packWords_lt h

theorem countBytes_mkBlob (tag n : Nat) (extra payload : List Nat) :
    ((mkBlob tag n extra payload).drop 8).take 8 = toLEBytes 8 n := by
  rw [drop8_mkBlob, List.take_left' (length_toLEBytes 8 n)]

theorem compress_f64_eq_mkBlob {xs : List ℚ} {sc : Option ℚ} {b : List Nat}
    (henc : compress_f64 xs sc = .ok b) (hxs : xs ≠ []) :
    ∃ qs, mapExcept (quantizeTo (-(2 ^ 63)) (2 ^ 63 - 1)
        (sc.getD DEFAULT_F64_SCALE)) xs = .ok qs ∧
      b = mkBlob TAG_F64 xs.length
        (f64ToLEBytes (sc.getD DEFAULT_F64_SCALE)) (encodeBodyS 64 8 qs) := by
  unfold compress_f64 at henc
  rw [if_neg hxs] at henc
  cases hq : mapExcept (quantizeTo (-(2 ^ 63)) (2 ^ 63 - 1)
      (sc.getD DEFAULT_F64_SCALE)) xs with
  | error e =>
    rw [hq] at henc
    exact absurd henc (by simp)
  | ok qs =>
    rw [hq] at henc
    simp only [Except.ok.injEq] at henc
    exact ⟨qs, rfl, henc.symm⟩

theorem compress_f32_eq_mkBlob {xs : List ℚ} {sc : Option ℚ} {b : List Nat}
    (henc : compress_f32 xs sc = .ok b) (hxs : xs ≠ []) :
    ∃ qs, mapExcept (quantizeTo (-(2 ^ 31)) (2 ^ 31 - 1)
        (sc.getD DEFAULT_F32_SCALE)) xs = .ok qs ∧
      b = mkBlob TAG_F32 xs.length
        (f64ToLEBytes (sc.getD DEFAULT_F32_SCALE)) (encodeBodyS 32 4 qs) := by
  unfold compress_f32 at henc
  rw [if_neg hxs] at henc
  cases hq : mapExcept (quantizeTo (-(2 ^ 31)) (2 ^ 31 - 1)
      (sc.getD DEFAULT_F32_SCALE)) xs with
  | error e =>
    rw [hq] at henc
    exact absurd henc (by simp)
  | ok qs =>
    rw [hq] at henc
    simp only [Except.ok.injEq] at henc
    exact ⟨qs, rfl, henc.symm⟩

theorem scaleBytes_mkBlob (tag n : Nat) (extra payload : List Nat)
    (hextra : extra.length = 8) :
    ((mkBlob tag n extra payload).drop 16).take 8 = extra := by
  rw [drop16_mkBlob, List.take_append_eq_append_take, hextra,
    List.take_of_length_le (by omega), Nat.sub_self, List.take_zero,
    List.append_nil]

theorem wrongType_message_names :
    ∀ u t : ElemType,
      containsStr ((CodecError.wrongType (tagOfType u)
        (tagOfType t)).message) (typeName (tagOfType u)) = true ∧
      containsStr ((CodecError.wrongType (tagOfType u)
        (tagOfType t)).message) (typeName (tagOfType t)) = true := by
  decide

/-- C1: for every integer element type in `{i64, u64, i32, u32, bytes}` and
every sample array whose elements are in the type's range (including the
extreme values) and whose length fits the 64-bit count field, decoding the
encoded blob reproduces the array bit-exactly. -/
theorem C1_integer_roundtrip :
    (∀ xs : List Int, (∀ x ∈ xs, -(2 ^ 63) ≤ x ∧ x < 2 ^ 63) →
      xs.length < 2 ^ 64 → decompress_i64 (compress_i64 xs) = .ok xs) ∧
    (∀ xs : List Nat, (∀ x ∈ xs, x < 2 ^ 64) → xs.length < 2 ^ 64 →
      decompress_u64 (compress_u64 xs) = .ok xs) ∧
    (∀ xs : List Int, (∀ x ∈ xs, -(2 ^ 31) ≤ x ∧ x < 2 ^ 31) →
      xs.length < 2 ^ 64 → decompress_i32 (compress_i32 xs) = .ok xs) ∧
    (∀ xs : List Nat, (∀ x ∈ xs, x < 2 ^ 32) → xs.length < 2 ^ 64 →
      decompress_u32 (compress_u32 xs) = .ok xs) ∧
    (∀ bs : List Nat, bs.length < 2 ^ 64 →
      decompress_bytes (compress_bytes bs) = .ok bs) :=
  ⟨fun _ => decompress_compress_i64, fun _ => decompress_compress_u64,
    fun _ => decompress_compress_i32, fun _ => decompress_compress_u32,
    fun _ => decompress_compress_bytes⟩

/-- Witness for C1 at the extreme values of each type. -/
theorem C1_integer_roundtrip_witness :
    decompress_i64 (compress_i64
        [-(2 ^ 63), -(2 ^ 63) + 1, -1, 0, 1, 2 ^ 63 - 2, 2 ^ 63 - 1]) =
      .ok [-(2 ^ 63), -(2 ^ 63) + 1, -1, 0, 1, 2 ^ 63 - 2, 2 ^ 63 - 1] ∧
    decompress_u64 (compress_u64 [0, 1, 2 ^ 64 - 1]) =
      .ok [0, 1, 2 ^ 64 - 1] ∧
    decompress_i32 (compress_i32 [-(2 ^ 31), -1, 0, 2 ^ 31 - 1]) =
      .ok [-(2 ^ 31), -1, 0, 2 ^ 31 - 1] ∧
    decompress_u32 (compress_u32 [0, 5, 2 ^ 32 - 1]) =
      .ok [0, 5, 2 ^ 32 - 1] ∧
    decompress_bytes (compress_bytes [0, 1, 255]) = .ok [0, 1, 255] :=
  ⟨C1_integer_roundtrip.1 _ (by decide) (by decide),
    C1_integer_roundtrip.2.1 _ (by decide) (by decide),
    C1_integer_roundtrip.2.2.1 _ (by decide) (by decide),
    C1_integer_roundtrip.2.2.2.1 _ (by decide) (by decide),
    C1_integer_roundtrip.2.2.2.2 _ (by decide)⟩

/-- C2: for every element type, encoding the empty sample array returns a
zero-length blob, and decoding a zero-length blob returns the empty array of
the requested type without error. -/
theorem C2_empty_roundtrip :
    compress_i64 [] = [] ∧ compress_u64 [] = [] ∧ compress_i32 [] = [] ∧
    compress_u32 [] = [] ∧ compress_bytes [] = [] ∧
    (∀ sc, compress_f64 [] sc = .ok []) ∧
    (∀ sc, compress_f32 [] sc = .ok []) ∧
    decompress_i64 [] = .ok [] ∧ decompress_u64 [] = .ok [] ∧
    decompress_i32 [] = .ok [] ∧ decompress_u32 [] = .ok [] ∧
    decompress_bytes [] = .ok [] ∧
    (∀ sc, decompress_f64 [] sc = .ok []) ∧
    (∀ sc, decompress_f32 [] sc = .ok []) :=
  ⟨rfl, rfl, rfl, rfl, rfl, fun _ => rfl, fun _ => rfl, rfl, rfl, rfl, rfl,
    rfl, fun _ => rfl, fun _ => rfl⟩

/-- C8: if any sample quantizes outside the target integer range (i64 for
f64, i32 for f32), the float encode call fails with the
QuantizationOverflow error kind instead of wrapping or saturating. -/
theorem C8_quantization_overflow :
    (∀ (xs : List ℚ) (s v : ℚ), v ∈ xs →
      (round (v * s) < -(2 ^ 63) ∨ 2 ^ 63 - 1 < round (v * s)) →
      compress_f64 xs (some s) = .error .quantizationOverflow) ∧
    (∀ (xs : List ℚ) (s v : ℚ), v ∈ xs →
      (round (v * s) < -(2 ^ 31) ∨ 2 ^ 31 - 1 < round (v * s)) →
      compress_f32 xs (some s) = .error .quantizationOverflow) := by
  constructor
  · intro xs s v hv hov
    have hxs : xs ≠ [] := by
      intro h
      rw [h] at hv
      exact absurd hv (List.not_mem_nil v)
    unfold compress_f64
    rw [if_neg hxs]
    simp only [Option.getD_some]
    rw [mapExcept_quantize_overflow ⟨v, hv, hov⟩]
  · intro xs s v hv hov
    have hxs : xs ≠ [] := by
      intro h
      rw [h] at hv
      exact absurd hv (List.not_mem_nil v)
    unfold compress_f32
    rw [if_neg hxs]
    simp only [Option.getD_some]
    rw [mapExcept_quantize_overflow ⟨v, hv, hov⟩]

/-- Witness for C8: `1e10` at scale `1e9` quantizes past `i64::MAX`, and
`1e4` at scale `1e6` quantizes past `i32::MAX`. -/
theorem C8_quantization_overflow_witness :
    compress_f64 [10000000000] (some 1000000000) =
      .error .quantizationOverflow ∧
    compress_f32 [10000] (some 1000000) = .error .quantizationOverflow :=
  ⟨C8_quantization_overflow.1 _ _ 10000000000 (by decide)
      (by norm_num [round_eq]),
    C8_quantization_overflow.2 _ _ 10000 (by decide)
      (by norm_num [round_eq])⟩

/-- C9: the i64 encoder is total: on any input (the element count bounded by
the 64-bit count field) it produces a well-formed byte blob, and the decoder
succeeds on every blob the encoder produced. -/
theorem C9_compress_total :
    ∀ xs : List Int, xs.length < 2 ^ 64 →
      (∀ b ∈ compress_i64 xs, b < 256) ∧
      ∃ r, decompress_i64 (compress_i64 xs) = .ok r := by
  intro xs hlen
  constructor
  · intro b hb
    by_cases hxs : xs = []
    · rw [hxs] at hb
      exact absurd hb (List.not_mem_nil b)
    · unfold compress_i64 at hb
      rw [if_neg hxs] at hb
      exact mem_mkBlob_lt (by norm_num [TAG_I64])
        (fun x hx => absurd hx (List.not_mem_nil x))
        (fun x hx => mem_encodeBodyS_lt hx) hb
  · by_cases hxs : xs = []
    · exact ⟨[], by rw [hxs]; rfl⟩
    · refine ⟨decodeBodyS 64 8 (encodeBodyS 64 8 xs), ?_⟩
      unfold compress_i64 decompress_i64
      rw [if_neg hxs, if_neg (mkBlob_ne_nil _ _ _ _)]
      rw [parseHeader_mkBlob _ _ _ _ _ hlen, if_pos rfl]
      simp only [List.nil_append, lz4Decompress]
      rw [if_neg (by rw [length_encodeBodyS]; omega)]

/-- Witness for C9 on an array whose middle element lies outside the i64
range: encoding still produces a well-formed blob and decoding it
succeeds. -/
theorem C9_compress_total_witness :
    (∀ b ∈ compress_i64 [1, 2 ^ 70, -3], b < 256) ∧
    ∃ r, decompress_i64 (compress_i64 [1, 2 ^ 70, -3]) = .ok r :=
  C9_compress_total [1, 2 ^ 70, -3] (by decide)

/-- C10: batch i64 encode maps empty arrays to zero-length blobs in place,
and the batch round-trip reproduces a mixed-size batch (including batches
made entirely of empty arrays) with index correspondence preserved. -/
theorem C10_batch_empty_arrays :
    ∀ xss : List (List Int),
      (∀ xs ∈ xss, (∀ x ∈ xs, -(2 ^ 63) ≤ x ∧ x < 2 ^ 63) ∧
        xs.length < 2 ^ 64) →
      decompress_many_i64 (compress_many_i64 xss) = .ok xss ∧
      ∀ i, xss.getD i [] = [] → (compress_many_i64 xss).getD i [] = [] := by
  intro xss h
  refine ⟨batch_roundtrip_i64 h, ?_⟩
  intro i hi
  have hmap := getD_map_eq compress_i64 xss i []
  rw [show compress_i64 [] = [] from rfl] at hmap
  unfold compress_many_i64
  rw [hmap, hi]
  rfl

/-- Witness for C10 on a mixed-size batch with empty arrays interleaved. -/
theorem C10_batch_empty_arrays_witness :
    decompress_many_i64 (compress_many_i64 [[], [1], [], [1, 2, 3]]) =
      .ok [[], [1], [], [1, 2, 3]] ∧
    ∀ i, ([[], [1], [], [1, 2, 3]] : List (List Int)).getD i [] = [] →
      (compress_many_i64 [[], [1], [], [1, 2, 3]]).getD i [] = [] :=
  C10_batch_empty_arrays [[], [1], [], [1, 2, 3]] (by decide)

/-- C3: every non-empty blob begins with the magic `CYDEC`, version byte 1,
codec id byte 1, the type tag of its element type (0 i64, 1 u64, 2 i32,
3 u32, 4 f64, 5 f32, 6 bytes), and the element count as unsigned
little-endian 64-bit in bytes 8..16; float blobs additionally carry the
effective scale as 64-bit IEEE-754 little-endian in bytes 16..24. -/
theorem C3_header_layout :
    (∀ xs : List Int, xs ≠ [] →
      (compress_i64 xs).take 5 = [0x43, 0x59, 0x44, 0x45, 0x43] ∧
      (compress_i64 xs).getD 5 0 = 1 ∧ (compress_i64 xs).getD 6 0 = 1 ∧
      (compress_i64 xs).getD 7 0 = 0 ∧
      ((compress_i64 xs).drop 8).take 8 = toLEBytes 8 xs.length) ∧
    (∀ xs : List Nat, xs ≠ [] →
      (compress_u64 xs).take 5 = [0x43, 0x59, 0x44, 0x45, 0x43] ∧
      (compress_u64 xs).getD 5 0 = 1 ∧ (compress_u64 xs).getD 6 0 = 1 ∧
      (compress_u64 xs).getD 7 0 = 1 ∧
      ((compress_u64 xs).drop 8).take 8 = toLEBytes 8 xs.length) ∧
    (∀ xs : List Int, xs ≠ [] →
      (compress_i32 xs).take 5 = [0x43, 0x59, 0x44, 0x45, 0x43] ∧
      (compress_i32 xs).getD 5 0 = 1 ∧ (compress_i32 xs).getD 6 0 = 1 ∧
      (compress_i32 xs).getD 7 0 = 2 ∧
      ((compress_i32 xs).drop 8).take 8 = toLEBytes 8 xs.length) ∧
    (∀ xs : List Nat, xs ≠ [] →
      (compress_u32 xs).take 5 = [0x43, 0x59, 0x44, 0x45, 0x43] ∧
      (compress_u32 xs).getD 5 0 = 1 ∧ (compress_u32 xs).getD 6 0 = 1 ∧
      (compress_u32 xs).getD 7 0 = 3 ∧
      ((compress_u32 xs).drop 8).take 8 = toLEBytes 8 xs.length) ∧
    (∀ bs : List Nat, bs ≠ [] →
      (compress_bytes bs).take 5 = [0x43, 0x59, 0x44, 0x45, 0x43] ∧
      (compress_bytes bs).getD 5 0 = 1 ∧ (compress_bytes bs).getD 6 0 = 1 ∧
      (compress_bytes bs).getD 7 0 = 6 ∧
      ((compress_bytes bs).drop 8).take 8 = toLEBytes 8 bs.length) ∧
    (∀ (xs : List ℚ) (sc : Option ℚ) (b : List Nat),
      compress_f64 xs sc = .ok b → xs ≠ [] →
      b.take 5 = [0x43, 0x59, 0x44, 0x45, 0x43] ∧
      b.getD 5 0 = 1 ∧ b.getD 6 0 = 1 ∧ b.getD 7 0 = 4 ∧
      (b.drop 8).take 8 = toLEBytes 8 xs.length ∧
      (b.drop 16).take 8 = f64ToLEBytes (sc.getD DEFAULT_F64_SCALE)) ∧
    (∀ (xs : List ℚ) (sc : Option ℚ) (b : List Nat),
      compress_f32 xs sc = .ok b → xs ≠ [] →
      b.take 5 = [0x43, 0x59, 0x44, 0x45, 0x43] ∧
      b.getD 5 0 = 1 ∧ b.getD 6 0 = 1 ∧ b.getD 7 0 = 5 ∧
      (b.drop 8).take 8 = toLEBytes 8 xs.length ∧
      (b.drop 16).take 8 = f64ToLEBytes (sc.getD DEFAULT_F32_SCALE)) := by
  refine ⟨?_, ?_, ?_, ?_, ?_, ?_, ?_⟩
  · intro xs hxs
    unfold compress_i64
    rw [if_neg hxs]
    exact ⟨take5_mkBlob _ _ _ _, getD5_mkBlob _ _ _ _, getD6_mkBlob _ _ _ _,
      getD7_mkBlob _ _ _ _, countBytes_mkBlob _ _ _ _⟩
  · intro xs hxs
    unfold compress_u64
    rw [if_neg hxs]
    exact ⟨take5_mkBlob _ _ _ _, getD5_mkBlob _ _ _ _, getD6_mkBlob _ _ _ _,
      getD7_mkBlob _ _ _ _, countBytes_mkBlob _ _ _ _⟩
  · intro xs hxs
    unfold compress_i32
    rw [if_neg hxs]
    exact ⟨take5_mkBlob _ _ _ _, getD5_mkBlob _ _ _ _, getD6_mkBlob _ _ _ _,
      getD7_mkBlob _ _ _ _, countBytes_mkBlob _ _ _ _⟩
  · intro xs hxs
    unfold compress_u32
    rw [if_neg hxs]
    exact ⟨take5_mkBlob _ _ _ _, getD5_mkBlob _ _ _ _, getD6_mkBlob _ _ _ _,
      getD7_mkBlob _ _ _ _, countBytes_mkBlob _ _ _ _⟩
  · intro bs hbs
    unfold compress_bytes
    rw [if_neg hbs]
    exact ⟨take5_mkBlob _ _ _ _, getD5_mkBlob _ _ _ _, getD6_mkBlob _ _ _ _,
      getD7_mkBlob _ _ _ _, countBytes_mkBlob _ _ _ _⟩
  · intro xs sc b henc hxs
    obtain ⟨qs, _, rfl⟩ := compress_f64_eq_mkBlob henc hxs
    exact ⟨take5_mkBlob _ _ _ _, getD5_mkBlob _ _ _ _, getD6_mkBlob _ _ _ _,
      getD7_mkBlob _ _ _ _, countBytes_mkBlob _ _ _ _,
      scaleBytes_mkBlob _ _ _ _ (length_f64ToLEBytes _)⟩
  · intro xs sc b henc hxs
    obtain ⟨qs, _, rfl⟩ := compress_f32_eq_mkBlob henc hxs
    exact ⟨take5_mkBlob _ _ _ _, getD5_mkBlob _ _ _ _, getD6_mkBlob _ _ _ _,
      getD7_mkBlob _ _ _ _, countBytes_mkBlob _ _ _ _,
      scaleBytes_mkBlob _ _ _ _ (length_f64ToLEBytes _)⟩

/-- Witness for C3 on an i64 array and an f64 array at the default scale. -/
theorem C3_header_layout_witness :
    ((compress_i64 [100, 101, 102, 103, 104]).take 5 =
        [0x43, 0x59, 0x44, 0x45, 0x43] ∧
      (compress_i64 [100, 101, 102, 103, 104]).getD 5 0 = 1 ∧
      (compress_i64 [100, 101, 102, 103, 104]).getD 6 0 = 1 ∧
      (compress_i64 [100, 101, 102, 103, 104]).getD 7 0 = 0 ∧
      ((compress_i64 [100, 101, 102, 103, 104]).drop 8).take 8 =
        toLEBytes 8 ([100, 101, 102, 103, 104] : List Int).length) ∧
    (([67, 89, 68, 69, 67, 1, 1, 4, 5, 0, 0, 0, 0, 0, 0, 0, 0, 0, 0, 0,
        101, 205, 205, 65, 0, 40, 107, 238, 0, 0, 0, 0, 0, 40, 107, 238, 0,
        0, 0, 0, 0, 40, 107, 238, 0, 0, 0, 0, 0, 40, 107, 238, 0, 0, 0, 0,
        0, 40, 107, 238, 0, 0, 0, 0] : List Nat).take 5 =
        [0x43, 0x59, 0x44, 0x45, 0x43] ∧
      ([67, 89, 68, 69, 67, 1, 1, 4, 5, 0, 0, 0, 0, 0, 0, 0, 0, 0, 0, 0,
        101, 205, 205, 65, 0, 40, 107, 238, 0, 0, 0, 0, 0, 40, 107, 238, 0,
        0, 0, 0, 0, 40, 107, 238, 0, 0, 0, 0, 0, 40, 107, 238, 0, 0, 0, 0,
        0, 40, 107, 238, 0, 0, 0, 0] : List Nat).getD 5 0 = 1 ∧
      ([67, 89, 68, 69, 67, 1, 1, 4, 5, 0, 0, 0, 0, 0, 0, 0, 0, 0, 0, 0,
        101, 205, 205, 65, 0, 40, 107, 238, 0, 0, 0, 0, 0, 40, 107, 238, 0,
        0, 0, 0, 0, 40, 107, 238, 0, 0, 0, 0, 0, 40, 107, 238, 0, 0, 0, 0,
        0, 40, 107, 238, 0, 0, 0, 0] : List Nat).getD 6 0 = 1 ∧
      ([67, 89, 68, 69, 67, 1, 1, 4, 5, 0, 0, 0, 0, 0, 0, 0, 0, 0, 0, 0,
        101, 205, 205, 65, 0, 40, 107, 238, 0, 0, 0, 0, 0, 40, 107, 238, 0,
        0, 0, 0, 0, 40, 107, 238, 0, 0, 0, 0, 0, 40, 107, 238, 0, 0, 0, 0,
        0, 40, 107, 238, 0, 0, 0, 0] : List Nat).getD 7 0 = 4 ∧
      (([67, 89, 68, 69, 67, 1, 1, 4, 5, 0, 0, 0, 0, 0, 0, 0, 0, 0, 0, 0,
        101, 205, 205, 65, 0, 40, 107, 238, 0, 0, 0, 0, 0, 40, 107, 238, 0,
        0, 0, 0, 0, 40, 107, 238, 0, 0, 0, 0, 0, 40, 107, 238, 0, 0, 0, 0,
        0, 40, 107, 238, 0, 0, 0, 0] : List Nat).drop 8).take 8 =
        toLEBytes 8 ([1, 2, 3, 4, 5] : List ℚ).length ∧
      (([67, 89, 68, 69, 67, 1, 1, 4, 5, 0, 0, 0, 0, 0, 0, 0, 0, 0, 0, 0,
        101, 205, 205, 65, 0, 40, 107, 238, 0, 0, 0, 0, 0, 40, 107, 238, 0,
        0, 0, 0, 0, 40, 107, 238, 0, 0, 0, 0, 0, 40, 107, 238, 0, 0, 0, 0,
        0, 40, 107, 238, 0, 0, 0, 0] : List Nat).drop 16).take 8 =
        f64ToLEBytes ((none : Option ℚ).getD DEFAULT_F64_SCALE)) :=
  ⟨C3_header_layout.1 [100, 101, 102, 103, 104] (by decide),
    C3_header_layout.2.2.2.2.2.1 [1, 2, 3, 4, 5] none _
      (by with_unfolding_all rfl) (by decide)⟩

/-- C4: for every f64 array whose quantized values fit the i64 range and
every positive scale passed to encode (any scale representable as an IEEE-754
double, so that the header field stores it exactly), the scale is written
into the blob header, decoding with the scale argument omitted uses the
header value, and each decoded value differs from its original by at most
`1 / scale`. -/
theorem C4_scale_embedded_precision :
    ∀ (xs : List ℚ) (s : ℚ) (b : List Nat), 0 < s →
      f64FromLEBytes (f64ToLEBytes s) = s → xs.length < 2 ^ 64 →
      compress_f64 xs (some s) = .ok b →
      (xs ≠ [] → (b.drop 16).take 8 = f64ToLEBytes s) ∧
      ∃ ys, decompress_f64 b none = .ok ys ∧ ys.length = xs.length ∧
        ∀ i, |ys.getD i 0 - xs.getD i 0| ≤ 1 / s := by
  intro xs s b hs hrepr hlen henc
  constructor
  · intro hxs
    obtain ⟨qs, _, rfl⟩ := compress_f64_eq_mkBlob henc hxs
    have := scaleBytes_mkBlob TAG_F64 xs.length
      (f64ToLEBytes ((some s).getD DEFAULT_F64_SCALE)) (encodeBodyS 64 8 qs)
      (length_f64ToLEBytes _)
    simpa using this
  · refine ⟨xs.map fun v => ((round (v * s) : ℤ) : ℚ) / s,
      decompress_compress_f64 hrepr hlen henc, by rw [List.length_map], ?_⟩
    intro i
    have hmap := getD_map_eq (fun v => ((round (v * s) : ℤ) : ℚ) / s) xs i 0
    rw [show ((round ((0 : ℚ) * s) : ℤ) : ℚ) / s = 0 by simp] at hmap
    rw [hmap]
    exact quant_err hs _

/-- Witness for C4 with samples `[1, 2, 3]` and scale `1000`. -/
theorem C4_scale_embedded_precision_witness :
    f64FromLEBytes (f64ToLEBytes 1000) = 1000 ∧
    ((([1, 2, 3] : List ℚ) ≠ [] →
      (([67, 89, 68, 69, 67, 1, 1, 4, 3, 0, 0, 0, 0, 0, 0, 0, 0, 0, 0, 0, 0,
        64, 143, 64, 160, 15, 0, 0, 0, 0, 0, 0, 160, 15, 0, 0, 0, 0, 0, 0,
        160, 15, 0, 0, 0, 0, 0, 0] : List Nat).drop 16).take 8 =
        f64ToLEBytes 1000) ∧
      ∃ ys, decompress_f64 [67, 89, 68, 69, 67, 1, 1, 4, 3, 0, 0, 0, 0, 0,
          0, 0, 0, 0, 0, 0, 0, 64, 143, 64, 160, 15, 0, 0, 0, 0, 0, 0, 160,
          15, 0, 0, 0, 0, 0, 0, 160, 15, 0, 0, 0, 0, 0, 0] none = .ok ys ∧
        ys.length = ([1, 2, 3] : List ℚ).length ∧
        ∀ i, |ys.getD i 0 - ([1, 2, 3] : List ℚ).getD i 0| ≤ 1 / 1000) :=
  ⟨by with_unfolding_all rfl,
    C4_scale_embedded_precision [1, 2, 3] 1000 _
      (by with_unfolding_all decide) (by with_unfolding_all rfl) (by decide)
      (by with_unfolding_all rfl)⟩

/-- C5: every batch encoder yields one blob per input array in input order,
each byte-identical to the single-array encoder's output at the same index;
the batch decoder decodes the blob at index `i` to the output at index `i`,
so a batch round-trip recovers the inputs for the integer types. -/
theorem C5_batch_matches_sequential :
    (∀ xss : List (List Int),
      (compress_many_i64 xss).length = xss.length ∧
      (∀ i, (compress_many_i64 xss).getD i [] =
        compress_i64 (xss.getD i [])) ∧
      ((∀ xs ∈ xss, (∀ x ∈ xs, -(2 ^ 63) ≤ x ∧ x < 2 ^ 63) ∧
          xs.length < 2 ^ 64) →
        decompress_many_i64 (compress_many_i64 xss) = .ok xss)) ∧
    (∀ xss : List (List Nat),
      (compress_many_u64 xss).length = xss.length ∧
      (∀ i, (compress_many_u64 xss).getD i [] =
        compress_u64 (xss.getD i [])) ∧
      ((∀ xs ∈ xss, (∀ x ∈ xs, x < 2 ^ 64) ∧ xs.length < 2 ^ 64) →
        decompress_many_u64 (compress_many_u64 xss) = .ok xss)) ∧
    (∀ xss : List (List Int),
      (compress_many_i32 xss).length = xss.length ∧
      (∀ i, (compress_many_i32 xss).getD i [] =
        compress_i32 (xss.getD i [])) ∧
      ((∀ xs ∈ xss, (∀ x ∈ xs, -(2 ^ 31) ≤ x ∧ x < 2 ^ 31) ∧
          xs.length < 2 ^ 64) →
        decompress_many_i32 (compress_many_i32 xss) = .ok xss)) ∧
    (∀ xss : List (List Nat),
      (compress_many_u32 xss).length = xss.length ∧
      (∀ i, (compress_many_u32 xss).getD i [] =
        compress_u32 (xss.getD i [])) ∧
      ((∀ xs ∈ xss, (∀ x ∈ xs, x < 2 ^ 32) ∧ xs.length < 2 ^ 64) →
        decompress_many_u32 (compress_many_u32 xss) = .ok xss)) ∧
    (∀ (xss : List (List ℚ)) (sc : Option ℚ) (bs : List (List Nat)),
      compress_many_f64 xss sc = .ok bs → bs.length = xss.length ∧
      ∀ i, i < xss.length →
        compress_f64 (xss.getD i []) sc = .ok (bs.getD i [])) ∧
    (∀ (xss : List (List ℚ)) (sc : Option ℚ) (bs : List (List Nat)),
      compress_many_f32 xss sc = .ok bs → bs.length = xss.length ∧
      ∀ i, i < xss.length →
        compress_f32 (xss.getD i []) sc = .ok (bs.getD i [])) ∧
    (∀ (bs : List (List Nat)) (sc : Option ℚ) (yss : List (List ℚ)),
      decompress_many_f64 bs sc = .ok yss → yss.length = bs.length ∧
      ∀ i, i < bs.length →
        decompress_f64 (bs.getD i []) sc = .ok (yss.getD i [])) ∧
    (∀ (bs : List (List Nat)) (sc : Option ℚ) (yss : List (List ℚ)),
      decompress_many_f32 bs sc = .ok yss → yss.length = bs.length ∧
      ∀ i, i < bs.length →
        decompress_f32 (bs.getD i []) sc = .ok (yss.getD i [])) := by
  refine ⟨fun xss => ⟨List.length_map xss compress_i64, ?_,
      batch_roundtrip_i64⟩,
    fun xss => ⟨List.length_map xss compress_u64, ?_, batch_roundtrip_u64⟩,
    fun xss => ⟨List.length_map xss compress_i32, ?_, batch_roundtrip_i32⟩,
    fun xss => ⟨List.length_map xss compress_u32, ?_, batch_roundtrip_u32⟩,
    fun xss sc bs h => mapExcept_ok_getD [] [] h,
    fun xss sc bs h => mapExcept_ok_getD [] [] h,
    fun bs sc yss h => mapExcept_ok_getD [] [] h,
    fun bs sc yss h => mapExcept_ok_getD [] [] h⟩
  · intro i
    have hmap := getD_map_eq compress_i64 xss i []
    rw [show compress_i64 [] = [] from rfl] at hmap
    exact hmap
  · intro i
    have hmap := getD_map_eq compress_u64 xss i []
    rw [show compress_u64 [] = [] from rfl] at hmap
    exact hmap
  · intro i
    have hmap := getD_map_eq compress_i32 xss i []
    rw [show compress_i32 [] = [] from rfl] at hmap
    exact hmap
  · intro i
    have hmap := getD_map_eq compress_u32 xss i []
    rw [show compress_u32 [] = [] from rfl] at hmap
    exact hmap

/-- Witness for C5: a two-array i64 batch round-trips, and a two-array f64
batch encode at scale 1 matches the single encoder element-wise. -/
theorem C5_batch_matches_sequential_witness :
    decompress_many_i64 (compress_many_i64 [[1, 2, 3], [10, 20, 30]]) =
      .ok [[1, 2, 3], [10, 20, 30]] ∧
    (([[67, 89, 68, 69, 67, 1, 1, 4, 1, 0, 0, 0, 0, 0, 0, 0, 0, 0, 0, 0, 0,
        0, 240, 63, 4, 0, 0, 0, 0, 0, 0, 0],
       [67, 89, 68, 69, 67, 1, 1, 4, 1, 0, 0, 0, 0, 0, 0, 0, 0, 0, 0, 0, 0,
        0, 240, 63, 8, 0, 0, 0, 0, 0, 0, 0]] : List (List Nat)).length =
      ([[1], [2]] : List (List ℚ)).length ∧
      ∀ i, i < ([[1], [2]] : List (List ℚ)).length →
        compress_f64 (([[1], [2]] : List (List ℚ)).getD i []) (some 1) =
          .ok (([[67, 89, 68, 69, 67, 1, 1, 4, 1, 0, 0, 0, 0, 0, 0, 0, 0, 0,
            0, 0, 0, 0, 240, 63, 4, 0, 0, 0, 0, 0, 0, 0],
           [67, 89, 68, 69, 67, 1, 1, 4, 1, 0, 0, 0, 0, 0, 0, 0, 0, 0, 0, 0,
            0, 0, 240, 63, 8, 0, 0, 0, 0, 0, 0, 0]] :
              List (List Nat)).getD i [])) :=
  ⟨(C5_batch_matches_sequential.1 [[1, 2, 3], [10, 20, 30]]).2.2 (by decide),
    C5_batch_matches_sequential.2.2.2.2.1 [[1], [2]] (some 1) _
      (by with_unfolding_all rfl)⟩

/-- C6: decoding a non-empty blob with the decoder of a different element
type fails with the WrongType error kind, and the error message names both
the expected and the found type. -/
theorem C6_wrong_type :
    ∀ (s : Sample) (b : List Nat) (u : ElemType),
      encodeSample s = .ok b → b ≠ [] → u ≠ s.elemType →
      decodeAs u b =
        .error (.wrongType (tagOfType u) (tagOfType s.elemType)) ∧
      containsStr ((CodecError.wrongType (tagOfType u)
        (tagOfType s.elemType)).message) (typeName (tagOfType u)) = true ∧
      containsStr ((CodecError.wrongType (tagOfType u)
        (tagOfType s.elemType)).message)
        (typeName (tagOfType s.elemType)) = true := by
  intro s b u henc hb hu
  obtain ⟨n, extra, payload, rfl⟩ := encodeSample_shape henc hb
  exact ⟨decodeAs_parse_error hb
      (parseHeader_mkBlob_wrongType n extra payload
        (tagOfType_inj u s.elemType hu)),
    (wrongType_message_names u s.elemType).1,
    (wrongType_message_names u s.elemType).2⟩

/-- Witness for C6: an i64 blob decoded as u64. -/
theorem C6_wrong_type_witness :
    decodeAs .tu64 [67, 89, 68, 69, 67, 1, 1, 0, 3, 0, 0, 0, 0, 0, 0, 0, 4,
        0, 0, 0, 0, 0, 0, 0, 4, 0, 0, 0, 0, 0, 0, 0, 4, 0, 0, 0, 0, 0, 0,
        0] =
      .error (.wrongType (tagOfType .tu64)
        (tagOfType (Sample.i64s [1, 2, 3]).elemType)) ∧
    containsStr ((CodecError.wrongType (tagOfType .tu64)
      (tagOfType (Sample.i64s [1, 2, 3]).elemType)).message)
      (typeName (tagOfType .tu64)) = true ∧
    containsStr ((CodecError.wrongType (tagOfType .tu64)
      (tagOfType (Sample.i64s [1, 2, 3]).elemType)).message)
      (typeName (tagOfType (Sample.i64s [1, 2, 3]).elemType)) = true :=
  C6_wrong_type (Sample.i64s [1, 2, 3]) _ .tu64 (by with_unfolding_all rfl)
    (by decide) (by decide)

/-- C7: on any valid non-empty blob, replacing a magic byte with a different
value makes its decoder fail with BadMagic, replacing the version byte with
a value other than 1 fails with BadVersion, and truncating below the header
size (16 bytes for integer types; 24 bytes for float types, whose header
also carries the scale) fails with TruncatedBlob;nothing is decoded. -/
theorem C7_corruption_errors :
    ∀ (s : Sample) (b : List Nat), encodeSample s = .ok b → b ≠ [] →
      (∀ j c, j < 5 → c ≠ MAGIC.getD j 0 →
        decodeAs s.elemType (b.set j c) = .error .badMagic) ∧
      (∀ v, v ≠ 1 → decodeAs s.elemType (b.set 5 v) =
        .error (.badVersion v)) ∧
      (∀ k, 0 < k → k < 16 →
        decodeAs s.elemType (b.take k) = .error .truncatedBlob) ∧
      (s.elemType = .tf64 ∨ s.elemType = .tf32 →
        ∀ k, 0 < k → k < 24 →
          decodeAs s.elemType (b.take k) = .error .truncatedBlob) := by
  intro s b henc hb
  have htrunc : ∀ k, 0 < k → k < 16 →
      decodeAs s.elemType (b.take k) = .error .truncatedBlob := by
    intro k hk0 hk16
    have hne : b.take k ≠ [] := by
      intro h
      rcases List.take_eq_nil_iff.mp h with h | h
      · omega
      · exact hb h
    exact decodeAs_parse_error hne
      (parseHeader_truncated (by
        rw [List.length_take]
        omega))
  obtain ⟨n, extra, payload, hbe⟩ := encodeSample_shape henc hb
  refine ⟨?_, ?_, htrunc, ?_⟩
  · intro j c hj hc
    have hne : b.set j c ≠ [] := by
      intro h
      apply hb
      have := congrArg List.length h
      rw [List.length_set] at this
      exact List.length_eq_zero.mp this
    rw [hbe]
    rw [hbe] at hne
    exact decodeAs_parse_error hne
      (parseHeader_set_magic n extra payload hj hc _)
  · intro v hv
    have hne : b.set 5 v ≠ [] := by
      intro h
      apply hb
      have := congrArg List.length h
      rw [List.length_set] at this
      exact List.length_eq_zero.mp this
    rw [hbe]
    rw [hbe] at hne
    exact decodeAs_parse_error hne
      (parseHeader_set_version n extra payload hv _)
  · intro hf k hk0 hk24
    by_cases hk16 : k < 16
    · exact htrunc k hk0 hk16
    · obtain ⟨n', extra', payload', hbe', hext'⟩ :=
        encodeSample_shape_float henc hb hf
      rcases hf with hf | hf
      · rw [hf] at hbe' ⊢
        simp only [tagOfType] at hbe'
        rw [hbe']
        simp only [decodeAs]
        rw [decompress_f64_take_truncated (by omega) hk24 none]
        rfl
      · rw [hf] at hbe' ⊢
        simp only [tagOfType] at hbe'
        rw [hbe']
        simp only [decodeAs]
        rw [decompress_f32_take_truncated (by omega) hk24 none]
        rfl

/-- Witness for C7: the i64 blob of `[1, 2, 3]` with byte 0 replaced, byte 5
replaced, and truncated to 10 bytes; and an f64 blob truncated to 20 bytes
(inside the float scale field). -/
theorem C7_corruption_errors_witness :
    decodeAs (Sample.i64s [1, 2, 3]).elemType
        (([67, 89, 68, 69, 67, 1, 1, 0, 3, 0, 0, 0, 0, 0, 0, 0, 4, 0, 0, 0,
          0, 0, 0, 0, 4, 0, 0, 0, 0, 0, 0, 0, 4, 0, 0, 0, 0, 0, 0, 0] :
          List Nat).set 0 88) = .error .badMagic ∧
    decodeAs (Sample.i64s [1, 2, 3]).elemType
        (([67, 89, 68, 69, 67, 1, 1, 0, 3, 0, 0, 0, 0, 0, 0, 0, 4, 0, 0, 0,
          0, 0, 0, 0, 4, 0, 0, 0, 0, 0, 0, 0, 4, 0, 0, 0, 0, 0, 0, 0] :
          List Nat).set 5 99) = .error (.badVersion 99) ∧
    decodeAs (Sample.i64s [1, 2, 3]).elemType
        (([67, 89, 68, 69, 67, 1, 1, 0, 3, 0, 0, 0, 0, 0, 0, 0, 4, 0, 0, 0,
          0, 0, 0, 0, 4, 0, 0, 0, 0, 0, 0, 0, 4, 0, 0, 0, 0, 0, 0, 0] :
          List Nat).take 10) = .error .truncatedBlob ∧
    decodeAs (Sample.f64s [1] none).elemType
        (([67, 89, 68, 69, 67, 1, 1, 4, 1, 0, 0, 0, 0, 0, 0, 0, 0, 0, 0, 0,
          101, 205, 205, 65, 0, 40, 107, 238, 0, 0, 0, 0] :
          List Nat).take 20) = .error .truncatedBlob :=
  ⟨(C7_corruption_errors (Sample.i64s [1, 2, 3]) _
      (by with_unfolding_all rfl) (by decide)).1 0 88 (by decide)
      (by decide),
    (C7_corruption_errors (Sample.i64s [1, 2, 3]) _
      (by with_unfolding_all rfl) (by decide)).2.1 99 (by decide),
    (C7_corruption_errors (Sample.i64s [1, 2, 3]) _
      (by with_unfolding_all rfl) (by decide)).2.2.1 10 (by decide)
      (by decide),
    (C7_corruption_errors (Sample.f64s [1] none) _
      (by with_unfolding_all rfl) (by decide)).2.2.2 (by decide) 20
      (by decide) (by decide)⟩

end Cydec
